import Mathlib

/-!
# RP2040 WS2812 matrix / SSD1306 text / debounced buttons

A shallow embedding of `src/neopixel_pio.c`.

* C `int` is `Int`; the coordinates the program computes stay far from the
  32-bit limits, so no wrap is modelled for them.  `uint`, `uint8_t` and
  `uint32_t` are `Nat` with an explicit reduction where the C code converts
  or wraps.
* A store or load outside an array is a `Fault`: the operations that index
  an array return `Except Fault _`.
* The PIO transmit FIFO is the list of words handed to
  `pio_sm_put_blocking`, oldest first.
-/

namespace NeopixelPio

/-! ## WS2812 matrix -/

/-- The constant `#define LED_COUNT 25`. -/
abbrev LED_COUNT : Nat := 25

/-- The struct `npLED_t` with its three `uint8_t` fields `G`, `R`, `B`. -/
structure npLED_t where
  G : Nat
  R : Nat
  B : Nat
  deriving DecidableEq, Repr

/-- The array `npLED_t leds[LED_COUNT]`. -/
abbrev Frame := Fin LED_COUNT → npLED_t

/-- An access outside an array of the program. -/
inductive Fault where
  | leds_out_of_bounds (index : Nat)
  | numbers_out_of_bounds (num : Int) (y : Int)
  deriving DecidableEq, Repr

/-- The globals of the LED driver: the frame `leds` and the words put to the
PIO state machine so far. -/
structure NpState where
  leds : Frame
  tx : List Nat

/-- The table `const uint8_t numbers[10][5]`. -/
def numbers : List (List Nat) :=
  [ [0b11111, 0b10001, 0b10001, 0b10001, 0b11111],
    [0b00100, 0b01100, 0b00100, 0b00100, 0b01110],
    [0b11111, 0b00001, 0b11111, 0b10000, 0b11111],
    [0b11111, 0b00001, 0b01110, 0b00001, 0b11111],
    [0b10001, 0b10001, 0b11111, 0b00001, 0b00001],
    [0b11111, 0b10000, 0b11111, 0b00001, 0b11111],
    [0b11111, 0b10000, 0b11111, 0b10001, 0b11111],
    [0b11111, 0b00001, 0b00010, 0b00100, 0b01000],
    [0b11111, 0b10001, 0b11111, 0b10001, 0b11111],
    [0b11111, 0b10001, 0b11111, 0b00001, 0b11111] ]

/-- The load `numbers[num][y]`: a fault unless `0 ≤ num < 10` and `0 ≤ y < 5`. -/
def numbers_read (num y : Int) : Except Fault Nat :=
  if 0 ≤ num ∧ num < 10 ∧ 0 ≤ y ∧ y < 5 then
    .ok ((numbers.getD num.toNat []).getD y.toNat 0)
  else
    .error (.numbers_out_of_bounds num y)

/-- The function `int getIndex_ws2812(int x, int y)`; `%` of C truncates, hence
`Int.tmod`. -/
def getIndex_ws2812 (x y : Int) : Int :=
  if Int.tmod y 2 = 0 then y * 5 + x else (y + 1) * 5 - 1 - x

/-- Conversion of an `int` argument to a `uint` parameter. -/
def int_to_uint (v : Int) : Nat := (v % 4294967296).toNat

/-- The function
`void npSetLED(const uint index, const uint8_t r, const uint8_t g, const uint8_t b)`.
The three stores go to `leds[index]` with no test of `index`; the colour
arguments are converted to `uint8_t`. -/
def npSetLED (s : NpState) (index r g b : Nat) : Except Fault NpState :=
  if h : index < LED_COUNT then
    .ok { s with leds := Function.update s.leds ⟨index, h⟩
                  { G := g % 256, R := r % 256, B := b % 256 } }
  else
    .error (.leds_out_of_bounds index)

/-- The function `void npClear()`: `memset(leds, 0, sizeof(leds))`. -/
def npClear (s : NpState) : NpState :=
  { s with leds := fun _ => { G := 0, R := 0, B := 0 } }

/-- The SDK call `pio_sm_put_blocking(np_pio, sm, data)`: one more word in the FIFO. -/
def pio_sm_put_blocking (s : NpState) (data : Nat) : NpState :=
  { s with tx := s.tx ++ [data] }

/-- The function `void npWrite()`: for `i = 0 .. LED_COUNT-1` put `leds[i].G`, `leds[i].R`,
`leds[i].B`; the closing `sleep_us(100)` changes no state. -/
def npWrite (s : NpState) : NpState :=
  (List.finRange LED_COUNT).foldl
    (fun st i =>
      let st1 := pio_sm_put_blocking st (st.leds i).G
      let st2 := pio_sm_put_blocking st1 (st1.leds i).R
      pio_sm_put_blocking st2 (st2.leds i).B)
    s

/-- The body of the inner loop of `displayNumber` at `(x, y)`. -/
def displayNumber_pixel (num : Int) (y : Int) (s : NpState) (x : Int) :
    Except Fault NpState := do
  let row ← numbers_read num y
  if row &&& (1 <<< (4 - x).toNat) ≠ 0 then
    npSetLED s (int_to_uint (getIndex_ws2812 x y)) 255 0 0
  else
    pure s

/-- The body of the outer loop of `displayNumber` at row `y`. -/
def displayNumber_row (num : Int) (s : NpState) (y : Int) : Except Fault NpState :=
  [0, 1, 2, 3, 4].foldlM (displayNumber_pixel num y) s

/-- The function `void displayNumber(int num)`: clear, light the set bits of the
glyph in red through the serpentine map, send. -/
def displayNumber (s : NpState) (num : Int) : Except Fault NpState := do
  let s1 := npClear s
  let s2 ← [0, 1, 2, 3, 4].foldlM (displayNumber_row num) s1
  pure (npWrite s2)

/-- The words `npWrite` adds to the FIFO. -/
def npWrite_emitted (s : NpState) : List Nat :=
  (npWrite s).tx.drop s.tx.length

/-- Full-intensity red, the colour `displayNumber` stores. -/
def red : npLED_t := { G := 0, R := 255, B := 0 }

/-- A LED that is off. -/
def off : npLED_t := { G := 0, R := 0, B := 0 }

/-- The driver state after `memset(leds, 0, sizeof(leds))` with nothing sent yet. -/
def zeroState : NpState := { leds := fun _ => off, tx := [] }

/-- The state `s` with the FIFO contents replaced by `t`. -/
def NpState.withTx (t : List Nat) (s : NpState) : NpState := { s with tx := t }

/-- Bit `4 - x` of `numbers[d][y]`. -/
def digit_bit (d : Nat) (x y : Fin 5) : Bool :=
  ((numbers.getD d []).getD y.val 0).testBit (4 - x.val)

/-- Physical index `p` is the image of a logical `(x, y)` whose bit is set in
the glyph of digit `d`. -/
def lit (d : Nat) (p : Fin LED_COUNT) : Prop :=
  ∃ x y : Fin 5, (p.val : Int) = getIndex_ws2812 x.val y.val ∧ digit_bit d x y = true

instance lit_decidable (d : Nat) (p : Fin LED_COUNT) : Decidable (lit d p) := by
  unfold lit; infer_instance

/-- A run that ended without a fault and whose result satisfies `P`. -/
def okAnd {ε α : Type} (e : Except ε α) (P : α → Bool) : Bool :=
  match e with
  | .ok a => P a
  | .error _ => false

/-! ## SSD1306 text -/

/-- The table `static const uint8_t font5x7_upper[26 * 5]`, five bytes a letter, `A` first. -/
def font5x7_upper : List Nat :=
  [ 0x7C, 0x12, 0x11, 0x12, 0x7C,
    0x7F, 0x49, 0x49, 0x49, 0x36,
    0x3E, 0x41, 0x41, 0x41, 0x22,
    0x7F, 0x41, 0x41, 0x22, 0x1C,
    0x7F, 0x49, 0x49, 0x49, 0x41,
    0x7F, 0x09, 0x09, 0x09, 0x01,
    0x3E, 0x41, 0x49, 0x49, 0x7A,
    0x7F, 0x08, 0x08, 0x08, 0x7F,
    0x00, 0x41, 0x7F, 0x41, 0x00,
    0x20, 0x40, 0x41, 0x3F, 0x01,
    0x7F, 0x08, 0x14, 0x22, 0x41,
    0x7F, 0x40, 0x40, 0x40, 0x40,
    0x7F, 0x02, 0x0C, 0x02, 0x7F,
    0x7F, 0x04, 0x08, 0x10, 0x7F,
    0x3E, 0x41, 0x41, 0x41, 0x3E,
    0x7F, 0x09, 0x09, 0x09, 0x06,
    0x3E, 0x41, 0x51, 0x21, 0x5E,
    0x7F, 0x09, 0x19, 0x29, 0x46,
    0x46, 0x49, 0x49, 0x49, 0x31,
    0x01, 0x01, 0x7F, 0x01, 0x01,
    0x3F, 0x40, 0x40, 0x40, 0x3F,
    0x1F, 0x20, 0x40, 0x20, 0x1F,
    0x3F, 0x40, 0x38, 0x40, 0x3F,
    0x63, 0x14, 0x08, 0x14, 0x63,
    0x07, 0x08, 0x70, 0x08, 0x07,
    0x61, 0x51, 0x49, 0x45, 0x43 ]

/-- The table `static const uint8_t font5x7_lower[26 * 5]`, five bytes a letter, `a` first. -/
def font5x7_lower : List Nat :=
  [ 0x20, 0x54, 0x54, 0x54, 0x78,
    0x7F, 0x48, 0x44, 0x44, 0x38,
    0x38, 0x44, 0x44, 0x44, 0x20,
    0x38, 0x44, 0x44, 0x48, 0x7F,
    0x38, 0x54, 0x54, 0x54, 0x18,
    0x08, 0x7E, 0x09, 0x01, 0x02,
    0x0C, 0x52, 0x52, 0x52, 0x3E,
    0x7F, 0x08, 0x04, 0x04, 0x78,
    0x00, 0x44, 0x7D, 0x40, 0x00,
    0x20, 0x40, 0x44, 0x3D, 0x00,
    0x7F, 0x10, 0x28, 0x44, 0x00,
    0x00, 0x41, 0x7F, 0x40, 0x00,
    0x7C, 0x04, 0x18, 0x04, 0x78,
    0x7C, 0x08, 0x04, 0x04, 0x78,
    0x38, 0x44, 0x44, 0x44, 0x38,
    0x7C, 0x14, 0x14, 0x14, 0x08,
    0x08, 0x14, 0x14, 0x18, 0x7C,
    0x7C, 0x08, 0x04, 0x04, 0x08,
    0x48, 0x54, 0x54, 0x54, 0x20,
    0x04, 0x3F, 0x44, 0x40, 0x20,
    0x3C, 0x40, 0x40, 0x20, 0x7C,
    0x1C, 0x20, 0x40, 0x20, 0x1C,
    0x3C, 0x40, 0x30, 0x40, 0x3C,
    0x44, 0x28, 0x10, 0x28, 0x44,
    0x0C, 0x50, 0x50, 0x50, 0x3C,
    0x44, 0x64, 0x54, 0x4C, 0x44 ]

/-- One call `ssd1306_set_pixel(buffer, x, y, on)`. -/
structure PixelWrite where
  x : Int
  y : Int
  pixel_on : Bool
  deriving DecidableEq, Repr

/-- One call `ssd1306_draw_char_custom(buffer, x, y, c)`. -/
structure CharCall where
  x : Int
  y : Int
  c : Char
  deriving DecidableEq, Repr

/-- The two nested loops of `ssd1306_draw_char_custom` over the glyph at
`font[index * 5 ..]`.  The pixel routine `ssd1306_set_pixel` is a parameter. -/
def draw_glyph {β : Type} (ssd1306_set_pixel : β → Int → Int → Bool → β)
    (buffer : β) (x y : Int) (font : List Nat) (index : Nat) : β :=
  ([0, 1, 2, 3, 4] : List Nat).foldl
    (fun buf col =>
      let line := font.getD (index * 5 + col) 0
      ([0, 1, 2, 3, 4, 5, 6] : List Nat).foldl
        (fun buf row =>
          let pixel_on := (line >>> row) &&& 0x01 != 0
          ssd1306_set_pixel buf (x + col) (y + row) pixel_on)
        buf)
    buffer

/-- The function `void ssd1306_draw_char_custom(uint8_t *buffer, int x, int y, char c)`. -/
def ssd1306_draw_char_custom {β : Type} (ssd1306_set_pixel : β → Int → Int → Bool → β)
    (buffer : β) (x y : Int) (c : Char) : β :=
  if 'A' ≤ c ∧ c ≤ 'Z' then
    draw_glyph ssd1306_set_pixel buffer x y font5x7_upper (c.toNat - 'A'.toNat)
  else if 'a' ≤ c ∧ c ≤ 'z' then
    draw_glyph ssd1306_set_pixel buffer x y font5x7_lower (c.toNat - 'a'.toNat)
  else if c = ' ' then
    buffer
  else
    buffer

/-- The `while (*str)` loop of `ssd1306_draw_string_custom`; the list holds the
characters before the terminating NUL.  The character routine is a parameter. -/
def draw_string_loop {β : Type} (draw_char : β → Int → Int → Char → β) (orig_x : Int) :
    β → Int → Int → List Char → β
  | buffer, _, _, [] => buffer
  | buffer, x, y, c :: str =>
    if c = '\n' then
      draw_string_loop draw_char orig_x buffer orig_x (y + 8) str
    else
      draw_string_loop draw_char orig_x (draw_char buffer x y c) (x + 6) y str

/-- The function
`void ssd1306_draw_string_custom(uint8_t *buffer, int x, int y, const char *str)`. -/
def ssd1306_draw_string_custom {β : Type} (ssd1306_set_pixel : β → Int → Int → Bool → β)
    (buffer : β) (x y : Int) (str : List Char) : β :=
  draw_string_loop (ssd1306_draw_char_custom ssd1306_set_pixel) x buffer x y str

/-- A pixel routine that only records its calls. -/
def log_pixel (t : List PixelWrite) (x y : Int) (pixel_on : Bool) : List PixelWrite :=
  t ++ [{ x := x, y := y, pixel_on := pixel_on }]

/-- A character routine that only records its calls. -/
def log_char (t : List CharCall) (x y : Int) (c : Char) : List CharCall :=
  t ++ [{ x := x, y := y, c := c }]

/-- The pixel writes `ssd1306_draw_char_custom` issues, in order. -/
def draw_char_writes (x y : Int) (c : Char) : List PixelWrite :=
  ssd1306_draw_char_custom log_pixel [] x y c

/-- The pixel writes `ssd1306_draw_string_custom` issues, in order. -/
def draw_string_writes (x y : Int) (str : List Char) : List PixelWrite :=
  ssd1306_draw_string_custom log_pixel [] x y str

/-- The calls of the character routine `ssd1306_draw_string_custom` makes, in order. -/
def draw_string_calls (x y : Int) (str : List Char) : List CharCall :=
  draw_string_loop log_char x [] x y str

/-- The array `static uint8_t ssd[1024]` (128 columns, 8 pages of 8 rows), as
the list of its bytes. -/
abbrev Buffer := List Nat

/-- The buffer after `memset(ssd, 0, ssd1306_buffer_length)`. -/
def ssd_zero : Buffer := List.replicate 1024 0

/-- Modelled from the spec: `ssd1306_set_pixel` of `inc/ssd1306.h`, whose body is
not in `src/`.  The framebuffer holds one bit per pixel, packed by column
within an 8-row page: pixel `(x, y)` is bit `y % 8` of byte `(y / 8) * 128 + x`.
A write outside the 128x64 area is rejected. -/
def ssd1306_set_pixel (ssd : Buffer) (x y : Int) (set : Bool) : Buffer :=
  if 0 ≤ x ∧ x < 128 ∧ 0 ≤ y ∧ y < 64 then
    let byte_idx := (y.toNat / 8) * 128 + x.toNat
    let byte := ssd.getD byte_idx 0
    ssd.set byte_idx
      (if set then byte ||| (1 <<< (y.toNat % 8))
       else byte &&& (255 ^^^ (1 <<< (y.toNat % 8))))
  else
    ssd

/-- Modelled from the spec: the state of pixel `(x, y)` of the framebuffer, bit
`y % 8` of byte `(y / 8) * 128 + x`; no pixel is on outside the display. -/
def ssd1306_get_pixel (ssd : Buffer) (x y : Int) : Bool :=
  if 0 ≤ x ∧ x < 128 ∧ 0 ≤ y ∧ y < 64 then
    (ssd.getD ((y.toNat / 8) * 128 + x.toNat) 0).testBit (y.toNat % 8)
  else
    false

/-- Whether `c` is a letter `A`-`Z` or `a`-`z`. -/
def is_letter (c : Char) : Bool :=
  (decide ('A' ≤ c) && decide (c ≤ 'Z')) || (decide ('a' ≤ c) && decide (c ≤ 'z'))

/-- The five bytes of the glyph of letter `c`: offset `5 * (c - 'A')` of
`font5x7_upper` for an uppercase letter, `5 * (c - 'a')` of `font5x7_lower`
otherwise. -/
def glyph (c : Char) : List Nat :=
  if 'A' ≤ c ∧ c ≤ 'Z' then (font5x7_upper.drop (5 * (c.toNat - 'A'.toNat))).take 5
  else (font5x7_lower.drop (5 * (c.toNat - 'a'.toNat))).take 5

/-- The 35 writes the claim on `ssd1306_draw_char_custom` lists: column by
column, row by row, the value being bit `row` of byte `col` of the glyph. -/
def glyph_writes (x y : Int) (c : Char) : List PixelWrite :=
  (List.range 5).flatMap fun (col : Nat) =>
    (List.range 7).map fun (row : Nat) =>
      { x := x + col, y := y + row, pixel_on := ((glyph c).getD col 0).testBit row }

/-- The 35 writes of the glyph stored at `font[index * 5 ..]`. -/
def font_writes (x y : Int) (font : List Nat) (index : Nat) : List PixelWrite :=
  (List.range 5).flatMap fun (col : Nat) =>
    (List.range 7).map fun (row : Nat) =>
      { x := x + col, y := y + row, pixel_on := (font.getD (index * 5 + col) 0).testBit row }

/-- The pixel routine run on a list of writes, in order. -/
def apply_writes {β : Type} (ssd1306_set_pixel : β → Int → Int → Bool → β)
    (buffer : β) (ws : List PixelWrite) : β :=
  ws.foldl (fun b w => ssd1306_set_pixel b w.x w.y w.pixel_on) buffer

/-- The character routine run on a list of calls, in order. -/
def apply_calls {β : Type} (draw_char : β → Int → Int → Char → β)
    (buffer : β) (cs : List CharCall) : β :=
  cs.foldl (fun b k => draw_char b k.x k.y k.c) buffer

/-- Number of newlines among the first `i` characters of `s`. -/
def newlines_before (s : List Char) (i : Nat) : Nat :=
  (s.take i).count '\n'

/-- Number of characters between the last newline before position `i` (or the
start of `s`) and position `i`. -/
def chars_since_newline (s : List Char) (i : Nat) : Nat :=
  ((s.take i).reverse.takeWhile fun c => c != '\n').length

/-- The call for position `i` of `s`, if any: none for a newline, otherwise the
character at `(x0 + 6k, y0 + 8j)` with `j` newlines before it and `k`
characters since the last of them. -/
def string_call_at (x0 y0 : Int) (s : List Char) (i : Nat) : Option CharCall :=
  if s.getD i ' ' = '\n' then none
  else some { x := x0 + 6 * (chars_since_newline s i : Int),
              y := y0 + 8 * (newlines_before s i : Int),
              c := s.getD i ' ' }

/-- The character calls the claim on `ssd1306_draw_string_custom` lists: one for
each position of `s` that holds no newline, left to right. -/
def string_calls (x0 y0 : Int) (s : List Char) : List CharCall :=
  (List.range s.length).filterMap (string_call_at x0 y0 s)

/-! ## Debounced buttons -/

/-- The globals `button_a_pressed`, `button_b_pressed`, `led_green_state`,
`led_blue_state` and the statics `last_time_a`, `last_time_b` of the two
interrupt handlers. -/
structure Buttons where
  button_a_pressed : Bool
  button_b_pressed : Bool
  led_green_state : Bool
  led_blue_state : Bool
  last_time_a : Nat
  last_time_b : Nat
  deriving DecidableEq, Repr

/-- The initial values: every flag `false`, both `last_time` statics `0`. -/
def Buttons.init : Buttons :=
  { button_a_pressed := false, button_b_pressed := false,
    led_green_state := false, led_blue_state := false,
    last_time_a := 0, last_time_b := 0 }

/-- Subtraction of `uint32_t`: the difference modulo `2^32`. -/
def uint32_sub (a b : Nat) : Nat :=
  (a % 4294967296 + (4294967296 - b % 4294967296)) % 4294967296

/-- The handler `void button_a_callback(uint gpio, uint32_t events)`; `now` is the value
`time_us_32()` returns. -/
def button_a_callback (g : Buttons) (now : Nat) : Buttons :=
  if uint32_sub now g.last_time_a < 50000 then g
  else { g with last_time_a := now, button_a_pressed := true }

/-- The handler `void button_b_callback(uint gpio, uint32_t events)`; `now` is the value
`time_us_32()` returns. -/
def button_b_callback (g : Buttons) (now : Nat) : Buttons :=
  if uint32_sub now g.last_time_b < 50000 then g
  else { g with last_time_b := now, button_b_pressed := true }

/-- The handler of button A runs past its early `return` at tick `now`. -/
def button_a_accepts (g : Buttons) (now : Nat) : Bool :=
  !decide (uint32_sub now g.last_time_a < 50000)

/-- Rising edges of button A at the given ticks, in order: the state after the
handler ran for each, and how many of them it accepted. -/
def button_a_edges (g : Buttons) : List Nat → Buttons × Nat
  | [] => (g, 0)
  | now :: rest =>
    let r := button_a_edges (button_a_callback g now) rest
    (r.1, (if button_a_accepts g now then 1 else 0) + r.2)

/-- The tick `ms` milliseconds after tick `t` of the 32-bit microsecond timer. -/
def tick_after_ms (t ms : Nat) : Nat := (t + 1000 * ms) % 4294967296

/-- The handler of button B runs past its early `return` at tick `now`. -/
def button_b_accepts (g : Buttons) (now : Nat) : Bool :=
  !decide (uint32_sub now g.last_time_b < 50000)

/-! ## Display refresh and main loop -/

/-- Modelled from the spec: the constant `ssd1306_buffer_length` of
`inc/ssd1306.h`, which is not in `src/`: the size of the framebuffer of the
whole 128x64 display, one bit per pixel, 1024 bytes. -/
def ssd1306_buffer_length : Nat := 1024

/-- The C library call `memset(buf, 0, n)` on a byte array: the first `n` bytes
become zero, the others stay. -/
def memset_zero (buf : Buffer) (n : Nat) : Buffer :=
  List.replicate (min n buf.length) 0 ++ buf.drop n

/-- The display driver seen from `displayOnSSD1306`: the framebuffer `ssd`, the
frames handed to `render_on_display` so far, and the messages
`displayOnSSD1306` was called with so far, oldest first. -/
structure Display where
  ssd : Buffer
  rendered : List Buffer
  messages : List (List Char)

/-- Modelled from the spec: `render_on_display` of `inc/ssd1306.h`, whose body is
not in `src/`, called with the area of the whole display: the full buffer is
transferred to the display peripheral and stays as it is. -/
def render_on_display (d : Display) : Display :=
  { d with rendered := d.rendered ++ [d.ssd] }

/-- The function `void displayOnSSD1306(const char *message)`. -/
def displayOnSSD1306 (d : Display) (message : List Char) : Display :=
  let ssd1 := memset_zero d.ssd ssd1306_buffer_length
  let ssd2 := ssd1306_draw_string_custom ssd1306_set_pixel ssd1 5 0 message
  render_on_display { ssd := ssd2, rendered := d.rendered, messages := d.messages ++ [message] }

/-- The state `main` works on: the button globals, the display, the LED matrix,
the levels last put on the green and blue LED pins, and what was printed. -/
structure Main where
  buttons : Buttons
  display : Display
  np : NpState
  led_green_pin : Bool
  led_blue_pin : Bool
  stdout : List (List Char)

/-- The state `init_hardware` leaves: cleared and rendered display, cleared LED
frame, initial button globals. -/
def Main.init : Main :=
  { buttons := Buttons.init,
    display := { ssd := ssd_zero, rendered := [ssd_zero], messages := [] },
    np := zeroState,
    led_green_pin := false, led_blue_pin := false, stdout := [] }

/-- The loop of the C library call `fgets`: at most `k` more characters are
taken, the last one taken being the first newline if there is one. -/
def fgets_loop : Nat → List Char → List Char × List Char
  | 0, rest => ([], rest)
  | _ + 1, [] => ([], [])
  | k + 1, c :: rest =>
    if c = '\n' then ([c], rest)
    else
      let r := fgets_loop k rest
      (c :: r.1, r.2)

/-- The C library call `fgets(input, n, stdin)` on the characters waiting in
`stdin`: `NULL` when there is none, otherwise the line read (at most `n - 1`
characters) and the characters left. -/
def fgets (n : Nat) (stdin : List Char) : Option (List Char) × List Char :=
  if stdin = [] then (none, [])
  else
    let r := fgets_loop (n - 1) stdin
    (some r.1, r.2)

/-- The NUL byte that ends a C string. -/
def NUL : Char := Char.ofNat 0

/-- The C string a buffer holds: its bytes before the first NUL. -/
def c_string (buf : List Char) : List Char :=
  buf.takeWhile fun c => c != NUL

/-- The C library call `strcspn(s, reject)` on the bytes of a buffer: the number
of bytes before the first one that is NUL, where the string ends, or is a
character of `reject`. -/
def strcspn : List Char → List Char → Nat
  | [], _ => 0
  | c :: s, reject => if c = NUL ∨ reject.contains c = true then 0 else strcspn s reject + 1

/-- The string in the buffer `input` after the statement
`input[strcspn(input, "\r\n")] = '\0'` of `main`.  The list `input` holds the
bytes `fgets` stored, which may include NUL bytes read from the console;
`fgets` puts the terminating NUL right after them. -/
def main_text (input : List Char) : List Char :=
  c_string ((input ++ [NUL]).set (strcspn input ['\r', '\n']) NUL)

/-- The value `input[0] - '0'` computed in `int`. -/
def digit_value (c : Char) : Int := (c.toNat : Int) - ('0'.toNat : Int)

/-- The body of `if (fgets(input, sizeof(input), stdin) != NULL)` in `main`;
`line` is what `fgets` returned: `none` for `NULL`, otherwise the bytes stored
in `input`.  `strlen`, `input[0]` and `displayOnSSD1306` work on the C string
the buffer holds after the cut. -/
def main_input (st : Main) (line : Option (List Char)) : Except Fault Main :=
  match line with
  | none => pure st
  | some input =>
    let input := main_text input
    if input.length > 0 then do
      let st1 := { st with display := displayOnSSD1306 st.display input }
      if '0' ≤ input.headD ' ' ∧ input.headD ' ' ≤ '9' then
        let num := digit_value (input.headD ' ')
        let np ← displayNumber st1.np num
        pure { st1 with np := np }
      else
        pure st1
    else
      pure st

/-- The text `sprintf(msg, "LED Verde %s", led_green_state ? "ligado" : "desligado")`. -/
def msg_green (led_green_state : Bool) : List Char :=
  "LED Verde ".toList ++ (if led_green_state then "ligado".toList else "desligado".toList)

/-- The text `sprintf(msg, "LED Azul %s", led_blue_state ? "ligado" : "desligado")`. -/
def msg_blue (led_blue_state : Bool) : List Char :=
  "LED Azul ".toList ++ (if led_blue_state then "ligado".toList else "desligado".toList)

/-- The block `if (button_a_pressed) ...` of the loop of `main`, run without an
interrupt in between. -/
def main_poll_a (st : Main) : Main :=
  if st.buttons.button_a_pressed then
    let b := { st.buttons with button_a_pressed := false,
                               led_green_state := !st.buttons.led_green_state }
    { st with buttons := b,
              led_green_pin := b.led_green_state,
              stdout := st.stdout ++ [msg_green b.led_green_state ++ ['\n']],
              display := displayOnSSD1306 st.display (msg_green b.led_green_state) }
  else
    st

/-- The statements of the block of button A that follow the test
`if (button_a_pressed)`: the store `button_a_pressed = false`, the negation of
`led_green_state`, `gpio_put`, the message on the console and on the display. -/
def main_poll_a_body (st : Main) : Main :=
  let b := { st.buttons with button_a_pressed := false,
                             led_green_state := !st.buttons.led_green_state }
  { st with buttons := b,
            led_green_pin := b.led_green_state,
            stdout := st.stdout ++ [msg_green b.led_green_state ++ ['\n']],
            display := displayOnSSD1306 st.display (msg_green b.led_green_state) }

/-- The block `if (button_a_pressed) ...` preempted once: the loop reads the flag,
then the handler of button A runs to its end at tick `now`, then the loop goes
on with the value it read, entering the block (whose first statement is the
store of `false`) when that value was `true`. -/
def main_poll_a_interrupted (st : Main) (now : Nat) : Main :=
  let read := st.buttons.button_a_pressed
  let st1 := { st with buttons := button_a_callback st.buttons now }
  if read then main_poll_a_body st1 else st1

/-- The block `if (button_b_pressed) ...` of the loop of `main`, run without an
interrupt in between. -/
def main_poll_b (st : Main) : Main :=
  if st.buttons.button_b_pressed then
    let b := { st.buttons with button_b_pressed := false,
                               led_blue_state := !st.buttons.led_blue_state }
    { st with buttons := b,
              led_blue_pin := b.led_blue_state,
              stdout := st.stdout ++ [msg_blue b.led_blue_state ++ ['\n']],
              display := displayOnSSD1306 st.display (msg_blue b.led_blue_state) }
  else
    st

/-- One pass of the `while (true)` loop of `main` with `stdin` waiting on the
console and no interrupt during the pass; the closing `sleep_ms(100)` changes
no state. -/
def main_iteration (st : Main) (stdin : List Char) : Except Fault (Main × List Char) := do
  let st0 := { st with stdout := st.stdout ++ ["Digite um caractere ou string: ".toList] }
  let r := fgets 20 stdin
  let st1 ← main_input st0 r.1
  pure (main_poll_b (main_poll_a st1), r.2)

/-- The line with its carriage-return and line-feed characters removed. -/
def strip_crlf (s : List Char) : List Char :=
  s.filter fun c => c != '\r' && c != '\n'

/-- A message of at most 20 characters with no newline in it. -/
def fits_one_line (m : List Char) : Prop :=
  m.length ≤ 20 ∧ ∀ c ∈ m, c ≠ '\n'

/-! ## Theorems: WS2812 matrix -/

/-- On a row `y ≥ 0` the truncating remainder of C is the usual one. -/
theorem getIndex_ws2812_of_nonneg (x y : Int) (hy : 0 ≤ y) :
    getIndex_ws2812 x y = if y % 2 = 0 then y * 5 + x else (y + 1) * 5 - 1 - x := by
  unfold getIndex_ws2812
  rw [Int.tmod_eq_emod hy (by decide)]

/-- C1: on the 5x5 logical coordinates `getIndex_ws2812` is `y*5+x` on even
rows and `(y+1)*5-1-x` on odd rows, its values lie in `0..24`, distinct
coordinates get distinct indices, and every index in `0..24` is reached. -/
theorem getIndex_ws2812_bijection :
    (∀ x y : Int, 0 ≤ x → x < 5 → 0 ≤ y → y < 5 →
      (y % 2 = 0 → getIndex_ws2812 x y = y * 5 + x) ∧
      (y % 2 = 1 → getIndex_ws2812 x y = (y + 1) * 5 - 1 - x) ∧
      0 ≤ getIndex_ws2812 x y ∧ getIndex_ws2812 x y < 25) ∧
    (∀ x y x2 y2 : Int, 0 ≤ x → x < 5 → 0 ≤ y → y < 5 →
      0 ≤ x2 → x2 < 5 → 0 ≤ y2 → y2 < 5 →
      getIndex_ws2812 x y = getIndex_ws2812 x2 y2 → x = x2 ∧ y = y2) ∧
    (∀ p : Int, 0 ≤ p → p < 25 →
      ∃ x y : Int, 0 ≤ x ∧ x < 5 ∧ 0 ≤ y ∧ y < 5 ∧ getIndex_ws2812 x y = p) := by
  refine ⟨?_, ?_, ?_⟩
  · intro x y hx0 hx5 hy0 hy5
    rw [getIndex_ws2812_of_nonneg x y hy0]
    split <;> omega
  · intro x y x2 y2 hx0 hx5 hy0 hy5 hx20 hx25 hy20 hy25
    rw [getIndex_ws2812_of_nonneg x y hy0, getIndex_ws2812_of_nonneg x2 y2 hy20]
    split <;> split <;> omega
  · intro p hp0 hp25
    interval_cases p
    · exact ⟨0, 0, by decide⟩
    · exact ⟨1, 0, by decide⟩
    · exact ⟨2, 0, by decide⟩
    · exact ⟨3, 0, by decide⟩
    · exact ⟨4, 0, by decide⟩
    · exact ⟨4, 1, by decide⟩
    · exact ⟨3, 1, by decide⟩
    · exact ⟨2, 1, by decide⟩
    · exact ⟨1, 1, by decide⟩
    · exact ⟨0, 1, by decide⟩
    · exact ⟨0, 2, by decide⟩
    · exact ⟨1, 2, by decide⟩
    · exact ⟨2, 2, by decide⟩
    · exact ⟨3, 2, by decide⟩
    · exact ⟨4, 2, by decide⟩
    · exact ⟨4, 3, by decide⟩
    · exact ⟨3, 3, by decide⟩
    · exact ⟨2, 3, by decide⟩
    · exact ⟨1, 3, by decide⟩
    · exact ⟨0, 3, by decide⟩
    · exact ⟨0, 4, by decide⟩
    · exact ⟨1, 4, by decide⟩
    · exact ⟨2, 4, by decide⟩
    · exact ⟨3, 4, by decide⟩
    · exact ⟨4, 4, by decide⟩

/-- Witness of C1 at the logical coordinate `(2, 3)`, on an odd row. -/
theorem getIndex_ws2812_bijection_witness :
    0 ≤ getIndex_ws2812 2 3 ∧ getIndex_ws2812 2 3 < 25 :=
  (getIndex_ws2812_bijection.1 2 3 (by decide) (by decide) (by decide) (by decide)).2.2

/-- The loop of `npWrite` over any list of indices keeps the frame and appends
the three channels of each entry, green first. -/
theorem npWrite_loop (l : List (Fin LED_COUNT)) (s : NpState) :
    l.foldl
      (fun st i =>
        let st1 := pio_sm_put_blocking st (st.leds i).G
        let st2 := pio_sm_put_blocking st1 (st1.leds i).R
        pio_sm_put_blocking st2 (st2.leds i).B)
      s
    = { leds := s.leds,
        tx := s.tx ++ l.flatMap fun i => [(s.leds i).G, (s.leds i).R, (s.leds i).B] } := by
  induction l generalizing s with
  | nil => simp
  | cons i l ih =>
    rw [List.foldl_cons, ih]
    simp [pio_sm_put_blocking]

theorem npWrite_eq (s : NpState) :
    npWrite s = { leds := s.leds,
                  tx := s.tx ++ (List.finRange LED_COUNT).flatMap fun i =>
                    [(s.leds i).G, (s.leds i).R, (s.leds i).B] } :=
  npWrite_loop _ s

theorem npWrite_emitted_eq (s : NpState) :
    npWrite_emitted s = (List.finRange LED_COUNT).flatMap fun i =>
      [(s.leds i).G, (s.leds i).R, (s.leds i).B] := by
  simp [npWrite_emitted, npWrite_eq]

theorem triples_length {α : Type} (l : List α) (f g h : α → Nat) :
    (l.flatMap fun i => [f i, g i, h i]).length = 3 * l.length := by
  induction l with
  | nil => simp
  | cons a l ih => simp [ih]; omega

theorem triples_getElem? {α : Type} (l : List α) (f g h : α → Nat) (k : Nat)
    (hk : k < l.length) :
    (l.flatMap fun i => [f i, g i, h i])[3 * k]? = some (f l[k]) ∧
    (l.flatMap fun i => [f i, g i, h i])[3 * k + 1]? = some (g l[k]) ∧
    (l.flatMap fun i => [f i, g i, h i])[3 * k + 2]? = some (h l[k]) := by
  induction l generalizing k with
  | nil => simp at hk
  | cons a l ih =>
    cases k with
    | zero => simp
    | succ k =>
      have hrec := ih k (by simpa using hk)
      have e1 : 3 * (k + 1) = 3 * k + 1 + 1 + 1 := by ring
      have e2 : 3 * (k + 1) + 1 = 3 * k + 1 + 1 + 1 + 1 := by ring
      have e3 : 3 * (k + 1) + 2 = 3 * k + 2 + 1 + 1 + 1 := by ring
      simp only [List.flatMap_cons, List.cons_append, List.nil_append, e1, e2, e3,
        List.getElem?_cons_succ, List.getElem_cons_succ]
      exact hrec

/-- The words `npWrite` emits for pixel `i` sit at positions `3i`, `3i+1`, `3i+2`. -/
theorem npWrite_emitted_pixel (s : NpState) (i : Fin LED_COUNT) :
    (npWrite_emitted s)[3 * i.val]? = some (s.leds i).G ∧
    (npWrite_emitted s)[3 * i.val + 1]? = some (s.leds i).R ∧
    (npWrite_emitted s)[3 * i.val + 2]? = some (s.leds i).B := by
  rw [npWrite_emitted_eq]
  have h := triples_getElem? (List.finRange LED_COUNT)
    (fun i => (s.leds i).G) (fun i => (s.leds i).R) (fun i => (s.leds i).B) i.val
    (by simp)
  simpa using h

/-- C3: `npWrite` appends exactly `3 * 25 = 75` words to the FIFO, leaves the
frame as it was, and for every pixel `i` the words at positions `3i`, `3i+1`,
`3i+2` of what it emits are the green, red and blue channel of `leds[i]`. -/
theorem npWrite_stream (s : NpState) :
    (npWrite s).tx = s.tx ++ npWrite_emitted s ∧
    (npWrite_emitted s).length = 3 * 25 ∧
    ∀ i : Fin LED_COUNT,
      (npWrite_emitted s)[3 * i.val]? = some (s.leds i).G ∧
      (npWrite_emitted s)[3 * i.val + 1]? = some (s.leds i).R ∧
      (npWrite_emitted s)[3 * i.val + 2]? = some (s.leds i).B := by
  refine ⟨?_, ?_, npWrite_emitted_pixel s⟩
  · rw [npWrite_emitted_eq, npWrite_eq]
  · rw [npWrite_emitted_eq, triples_length, List.length_finRange]

/-- With `index` inside the frame `npSetLED` stores the colour, each channel
reduced to 8 bits, in entry `index`. -/
theorem npSetLED_ok (s : NpState) (index r g b : Nat) (h : index < LED_COUNT) :
    npSetLED s index r g b =
      .ok { leds := Function.update s.leds ⟨index, h⟩
                      { G := g % 256, R := r % 256, B := b % 256 },
            tx := s.tx } := by
  simp only [npSetLED, dif_pos h]

/-- C4: for `i < 25` and 8-bit `r`, `g`, `b`, `npSetLED(i, r, g, b)` succeeds and
a following `npWrite` emits `(g, r, b)` at pixel position `i`, while the
triplet of every other pixel position is the one `npWrite` would have emitted
before the call. -/
theorem npSetLED_then_npWrite (s : NpState) (i r g b : Nat)
    (hi : i < 25) (hr : r < 256) (hg : g < 256) (hb : b < 256) :
    ∃ s2, npSetLED s i r g b = .ok s2 ∧
      (npWrite_emitted s2)[3 * i]? = some g ∧
      (npWrite_emitted s2)[3 * i + 1]? = some r ∧
      (npWrite_emitted s2)[3 * i + 2]? = some b ∧
      ∀ j : Fin LED_COUNT, j.val ≠ i →
        s2.leds j = s.leds j ∧
        (npWrite_emitted s2)[3 * j.val]? = (npWrite_emitted s)[3 * j.val]? ∧
        (npWrite_emitted s2)[3 * j.val + 1]? = (npWrite_emitted s)[3 * j.val + 1]? ∧
        (npWrite_emitted s2)[3 * j.val + 2]? = (npWrite_emitted s)[3 * j.val + 2]? := by
  have hi2 : i < LED_COUNT := hi
  refine ⟨_, npSetLED_ok s i r g b hi2, ?_⟩
  generalize hs2 : ({ leds := Function.update s.leds ⟨i, hi2⟩
                        { G := g % 256, R := r % 256, B := b % 256 },
                      tx := s.tx } : NpState) = s2
  have hleds : s2.leds = Function.update s.leds ⟨i, hi2⟩ { G := g, R := r, B := b } := by
    rw [← hs2, Nat.mod_eq_of_lt hr, Nat.mod_eq_of_lt hg, Nat.mod_eq_of_lt hb]
  have hself := npWrite_emitted_pixel s2 ⟨i, hi2⟩
  rw [hleds, Function.update_same] at hself
  refine ⟨hself.1, hself.2.1, hself.2.2, ?_⟩
  intro j hj
  have hne : j ≠ ⟨i, hi2⟩ := fun h => hj (by rw [h])
  have hother := npWrite_emitted_pixel s2 j
  have hold := npWrite_emitted_pixel s j
  rw [hleds, Function.update_noteq hne] at hother
  refine ⟨by rw [hleds, Function.update_noteq hne], ?_, ?_, ?_⟩
  · rw [hother.1, hold.1]
  · rw [hother.2.1, hold.2.1]
  · rw [hother.2.2, hold.2.2]

/-- Witness of C4: `npSetLED(7, 10, 20, 30)` on the cleared frame, then `npWrite`. -/
theorem npSetLED_then_npWrite_witness :
    ∃ s2, npSetLED zeroState 7 10 20 30 = .ok s2 ∧
      (npWrite_emitted s2)[3 * 7]? = some 20 ∧
      (npWrite_emitted s2)[3 * 7 + 1]? = some 10 ∧
      (npWrite_emitted s2)[3 * 7 + 2]? = some 30 := by
  obtain ⟨s2, h1, h2, h3, h4, _⟩ :=
    npSetLED_then_npWrite zeroState 7 10 20 30 (by decide) (by decide) (by decide) (by decide)
  exact ⟨s2, h1, h2, h3, h4⟩

/-- C10 fails as stated: `npSetLED(25, 255, 0, 0)` is not a no-op, it stores to
`leds[25]`, one entry past the end of the frame. -/
theorem npSetLED_index_25_out_of_bounds :
    npSetLED zeroState 25 255 0 0 = .error (.leds_out_of_bounds 25) ∧
    ¬ (∀ (s : NpState) (index r g b : Nat), 25 ≤ index →
        ∃ s2, npSetLED s index r g b = .ok s2 ∧ s2.leds = s.leds) := by
  refine ⟨rfl, ?_⟩
  intro h
  obtain ⟨s2, h2, _⟩ := h zeroState 25 255 0 0 (le_refl _)
  simp [npSetLED] at h2

/-- C10 as amended: `npSetLED` has no bounds test.  For `index < 25` the store
stays inside the frame and changes entry `index` only; for every
`index ≥ 25` the store goes to `leds[index]`, outside the frame. -/
theorem npSetLED_bounds (s : NpState) (index r g b : Nat) :
    (index < 25 → ∃ s2, npSetLED s index r g b = .ok s2 ∧ s2.tx = s.tx ∧
        ∀ j : Fin LED_COUNT, j.val ≠ index → s2.leds j = s.leds j) ∧
    (25 ≤ index → npSetLED s index r g b = .error (.leds_out_of_bounds index)) := by
  constructor
  · intro hi
    have hi2 : index < LED_COUNT := hi
    refine ⟨_, npSetLED_ok s index r g b hi2, rfl, ?_⟩
    intro j hj
    have hne : j ≠ ⟨index, hi2⟩ := fun h => hj (by rw [h])
    simp [Function.update_noteq hne]
  · intro hi
    have hi2 : ¬ index < LED_COUNT := by simp [LED_COUNT]; omega
    simp only [npSetLED, dif_neg hi2]

/-- Witness of the amended C10 at index 30: the store is out of bounds. -/
theorem npSetLED_bounds_witness :
    npSetLED zeroState 30 1 2 3 = .error (.leds_out_of_bounds 30) :=
  (npSetLED_bounds zeroState 30 1 2 3).2 (by decide)

/-- A loop in `Except` commutes with a map of the state that every step
commutes with. -/
theorem foldlM_map_comm {σ α ε : Type} (h : σ → σ) (f : σ → α → Except ε σ)
    (hf : ∀ s a, f (h s) a = (f s a).map h) (l : List α) (s : σ) :
    l.foldlM f (h s) = (l.foldlM f s).map h := by
  induction l generalizing s with
  | nil => rfl
  | cons a l ih =>
    rw [List.foldlM_cons, List.foldlM_cons, hf]
    cases hfa : f s a with
    | error e => rfl
    | ok s1 => exact ih s1

theorem npSetLED_withTx (t : List Nat) (s : NpState) (index r g b : Nat) :
    npSetLED (s.withTx t) index r g b = (npSetLED s index r g b).map (NpState.withTx t) := by
  unfold npSetLED
  split <;> rfl

theorem displayNumber_pixel_withTx (num y : Int) (t : List Nat) (s : NpState) (x : Int) :
    displayNumber_pixel num y (s.withTx t) x
      = (displayNumber_pixel num y s x).map (NpState.withTx t) := by
  unfold displayNumber_pixel
  cases numbers_read num y with
  | error e => rfl
  | ok row =>
    show (if row &&& (1 <<< (4 - x).toNat) ≠ 0 then _ else _) =
      Except.map _ (if row &&& (1 <<< (4 - x).toNat) ≠ 0 then _ else _)
    split
    · exact npSetLED_withTx t s _ _ _ _
    · rfl

theorem displayNumber_row_withTx (num : Int) (t : List Nat) (s : NpState) (y : Int) :
    displayNumber_row num (s.withTx t) y
      = (displayNumber_row num s y).map (NpState.withTx t) :=
  foldlM_map_comm (NpState.withTx t) (displayNumber_pixel num y)
    (fun s x => displayNumber_pixel_withTx num y t s x) _ s

/-- The frame `displayNumber` builds does not depend on the state it starts
from: the loops run on the cleared frame. -/
theorem displayNumber_eq (s : NpState) (num : Int) :
    displayNumber s num
      = (([0, 1, 2, 3, 4].foldlM (displayNumber_row num) zeroState).map
          (NpState.withTx s.tx)).map npWrite := by
  have hloop := foldlM_map_comm (NpState.withTx s.tx) (displayNumber_row num)
    (fun s1 y => displayNumber_row_withTx num s.tx s1 y) [0, 1, 2, 3, 4] zeroState
  show ([0, 1, 2, 3, 4].foldlM (displayNumber_row num) (zeroState.withTx s.tx) >>=
    fun s2 => pure (npWrite s2)) = _
  rw [hloop]
  cases [0, 1, 2, 3, 4].foldlM (displayNumber_row num) zeroState <;> rfl

set_option maxRecDepth 100000 in
/-- For each digit the loops of `displayNumber`, run on the cleared frame, end
without a fault in the frame that is red on the lit indices and off elsewhere. -/
theorem displayNumber_loops (d : Fin 10) :
    okAnd ([0, 1, 2, 3, 4].foldlM (displayNumber_row (d.val : Int)) zeroState)
      (fun s2 => decide (∀ p : Fin LED_COUNT, s2.leds p = if lit d.val p then red else off))
    = true := by
  revert d
  decide

/-- C2: for every digit `d` in `0..9` and every prior state, `displayNumber(d)`
ends without a fault, and the frame entry at physical index `p` is red at
full intensity, `(R,G,B) = (255,0,0)`, when `p = getIndex_ws2812(x,y)` for
some `0 ≤ x,y < 5` with bit `4-x` of `numbers[d][y]` set, and `(0,0,0)` for
every other `p`. -/
theorem displayNumber_frame (s : NpState) (d : Int) (h0 : 0 ≤ d) (h9 : d ≤ 9) :
    ∃ s2, displayNumber s d = .ok s2 ∧
      ∀ p : Fin LED_COUNT,
        (lit d.toNat p → s2.leds p = { G := 0, R := 255, B := 0 }) ∧
        (¬ lit d.toNat p → s2.leds p = { G := 0, R := 0, B := 0 }) := by
  have hd : d.toNat < 10 := by omega
  have hcast : ((d.toNat : Nat) : Int) = d := Int.toNat_of_nonneg h0
  have key := displayNumber_loops ⟨d.toNat, hd⟩
  simp only [hcast] at key
  rw [displayNumber_eq]
  cases hloop : [0, 1, 2, 3, 4].foldlM (displayNumber_row d) zeroState with
  | error e => rw [hloop] at key; simp [okAnd] at key
  | ok s1 =>
    rw [hloop] at key
    simp only [okAnd, decide_eq_true_eq] at key
    refine ⟨npWrite (s1.withTx s.tx), rfl, fun p => ?_⟩
    have hleds : (npWrite (s1.withTx s.tx)).leds p = s1.leds p := by
      rw [npWrite_eq]; rfl
    rw [hleds, key p]
    constructor
    · intro hl; rw [if_pos hl]; rfl
    · intro hl; rw [if_neg hl]; rfl

/-- Witness of C2 at `d = 5`: the lit indices are exactly
`0,1,2,3,4,9,10,11,12,13,14,15,20,21,22,23,24`. -/
theorem displayNumber_frame_witness :
    ∃ s2, displayNumber zeroState 5 = .ok s2 ∧
      ∀ p : Fin LED_COUNT,
        s2.leds p =
          if p.val ∈ [0, 1, 2, 3, 4, 9, 10, 11, 12, 13, 14, 15, 20, 21, 22, 23, 24]
          then { G := 0, R := 255, B := 0 } else { G := 0, R := 0, B := 0 } := by
  obtain ⟨s2, hrun, hframe⟩ := displayNumber_frame zeroState 5 (by decide) (by decide)
  refine ⟨s2, hrun, fun p => ?_⟩
  have hlit : ∀ q : Fin LED_COUNT,
      lit 5 q ↔ q.val ∈ [0, 1, 2, 3, 4, 9, 10, 11, 12, 13, 14, 15, 20, 21, 22, 23, 24] := by
    decide
  have h5 : (5 : Int).toNat = 5 := rfl
  rw [h5] at hframe
  by_cases hp : lit 5 p
  · rw [if_pos ((hlit p).1 hp)]; exact (hframe p).1 hp
  · rw [if_neg (fun h => hp ((hlit p).2 h))]; exact (hframe p).2 hp

/-! ## Theorems: debounced buttons -/

/-- Without wrap-around the `uint32_t` difference is the plain difference. -/
theorem uint32_sub_of_le (a b : Nat) (hab : b ≤ a) (ha : a < 4294967296) :
    uint32_sub a b = a - b := by
  unfold uint32_sub
  omega

/-- C5: one run of `button_a_callback` (and likewise `button_b_callback`) at tick
`now`.  When the `uint32_t` difference `now - last_time` is below `50000` the
edge is discarded and the state is left exactly as it was; otherwise
`last_time` becomes `now` and the pending flag becomes `true`, whatever it was,
and nothing else changes. -/
theorem button_callback_step (g : Buttons) (now : Nat) :
    (uint32_sub now g.last_time_a < 50000 → button_a_callback g now = g) ∧
    (¬ uint32_sub now g.last_time_a < 50000 →
      button_a_callback g now = { g with last_time_a := now, button_a_pressed := true }) ∧
    (uint32_sub now g.last_time_b < 50000 → button_b_callback g now = g) ∧
    (¬ uint32_sub now g.last_time_b < 50000 →
      button_b_callback g now = { g with last_time_b := now, button_b_pressed := true }) := by
  refine ⟨fun h => ?_, fun h => ?_, fun h => ?_, fun h => ?_⟩
  · simp only [button_a_callback, if_pos h]
  · simp only [button_a_callback, if_neg h]
  · simp only [button_b_callback, if_pos h]
  · simp only [button_b_callback, if_neg h]

/-- Witness of C5: from the initial state an edge at tick `60000` is accepted by
the handler of button A, and a second edge at tick `70000` is discarded. -/
theorem button_callback_step_witness :
    button_a_callback Buttons.init 60000
      = { Buttons.init with last_time_a := 60000, button_a_pressed := true } ∧
    button_a_callback
        { Buttons.init with last_time_a := 60000, button_a_pressed := true } 70000
      = { Buttons.init with last_time_a := 60000, button_a_pressed := true } :=
  ⟨(button_callback_step Buttons.init 60000).2.1 (by decide),
   (button_callback_step
      { Buttons.init with last_time_a := 60000, button_a_pressed := true } 70000).1
      (by decide)⟩

/-- C6 fails as stated at `t = 0`: from the initial state both edges of the pair
`0`, `0 + 10 ms` are discarded, and only the second edge of the pair `0`,
`0 + 60 ms` is accepted. -/
theorem button_a_edges_at_tick_0 :
    (button_a_edges Buttons.init [0, tick_after_ms 0 10]).2 = 0 ∧
    (button_a_edges Buttons.init [0, tick_after_ms 0 60]).2 = 1 := by
  decide

/-- The `uint32_t` difference between a tick and the tick `d` microseconds
before it is `d`, also across the wrap of the timer. -/
theorem uint32_sub_elapsed (t d : Nat) (hd : d < 4294967296) :
    uint32_sub ((t + d) % 4294967296) t = d := by
  unfold uint32_sub
  omega

theorem button_a_edges_two (g : Buttons) (t t2 : Nat) :
    (button_a_edges g [t, t2]).2
      = (if button_a_accepts g t then 1 else 0)
        + (if button_a_accepts (button_a_callback g t) t2 then 1 else 0) := by
  simp [button_a_edges]

/-- A first edge before tick `50000` is discarded in the initial state. -/
theorem button_a_first_edge_early (t : Nat) (ht : t < 50000) :
    button_a_accepts Buttons.init t = false ∧ button_a_callback Buttons.init t = Buttons.init := by
  have h : uint32_sub t Buttons.init.last_time_a < 50000 := by
    simp only [uint32_sub, Buttons.init]; omega
  simp [button_a_accepts, button_a_callback, h]

/-- A first edge from tick `50000` on is accepted in the initial state. -/
theorem button_a_first_edge_late (t : Nat) (ht : 50000 ≤ t) (ht2 : t < 4294967296) :
    button_a_accepts Buttons.init t = true ∧
    button_a_callback Buttons.init t
      = { Buttons.init with last_time_a := t, button_a_pressed := true } := by
  have h : ¬ uint32_sub t Buttons.init.last_time_a < 50000 := by
    simp only [uint32_sub, Buttons.init]; omega
  simp [button_a_accepts, button_a_callback, h]

/-- The second edge of a pair, `ms` milliseconds after the first. -/
theorem button_a_second_edge (t ms : Nat) (ht : t < 4294967296) (hms : ms < 1000) :
    (50000 ≤ t →
      button_a_accepts { Buttons.init with last_time_a := t, button_a_pressed := true }
        (tick_after_ms t ms) = decide (50 ≤ ms)) ∧
    (t < 50000 →
      button_a_accepts Buttons.init (tick_after_ms t ms) = decide (50000 ≤ t + 1000 * ms)) := by
  constructor
  · intro _
    have h := uint32_sub_elapsed t (1000 * ms) (by omega)
    simp only [button_a_accepts, tick_after_ms, h]
    by_cases h50 : 50 ≤ ms
    · have : ¬ 1000 * ms < 50000 := by omega
      simp [this, h50]
    · have : 1000 * ms < 50000 := by omega
      simp [this, h50]
  · intro hlt
    have h : uint32_sub (tick_after_ms t ms) Buttons.init.last_time_a = t + 1000 * ms := by
      simp only [uint32_sub, tick_after_ms, Buttons.init]; omega
    simp only [button_a_accepts, h]
    by_cases h50 : 50000 ≤ t + 1000 * ms
    · have : ¬ t + 1000 * ms < 50000 := by omega
      simp [this, h50]
    · have : t + 1000 * ms < 50000 := by omega
      simp [this, h50]

/-- C6 as amended: from the initial state, with the first edge at tick `t`, the
pair `t`, `t + 10 ms` has exactly one accepted edge and the pair `t`,
`t + 60 ms` exactly two whenever `t ≥ 50000`; a first edge before tick `50000`
is itself discarded, which leaves one accepted edge for the 60 ms pair and,
before tick `40000`, none for the 10 ms pair. -/
theorem button_a_edges_pair (t : Nat) (ht : t < 4294967296) :
    (button_a_edges Buttons.init [t, tick_after_ms t 10]).2
      = (if t < 40000 then 0 else 1) ∧
    (button_a_edges Buttons.init [t, tick_after_ms t 60]).2
      = (if t < 50000 then 1 else 2) := by
  rw [button_a_edges_two, button_a_edges_two]
  by_cases h : t < 50000
  · obtain ⟨hacc, hstate⟩ := button_a_first_edge_early t h
    rw [hacc, hstate, (button_a_second_edge t 10 ht (by decide)).2 h,
      (button_a_second_edge t 60 ht (by decide)).2 h]
    by_cases h4 : t < 40000
    · have e1 : ¬ 50000 ≤ t + 1000 * 10 := by omega
      have e2 : 50000 ≤ t + 1000 * 60 := by omega
      simp [h, h4, e1, e2]
    · have e1 : 50000 ≤ t + 1000 * 10 := by omega
      have e2 : 50000 ≤ t + 1000 * 60 := by omega
      simp [h, h4, e1, e2]
  · have h5 : 50000 ≤ t := by omega
    have h4 : ¬ t < 40000 := by omega
    obtain ⟨hacc, hstate⟩ := button_a_first_edge_late t h5 ht
    rw [hacc, hstate, (button_a_second_edge t 10 ht (by decide)).1 h5,
      (button_a_second_edge t 60 ht (by decide)).1 h5]
    simp [h, h4]

/-- Witness of the amended C6 with the first edge at tick `50000`. -/
theorem button_a_edges_pair_witness :
    (button_a_edges Buttons.init [50000, tick_after_ms 50000 10]).2 = 1 ∧
    (button_a_edges Buttons.init [50000, tick_after_ms 50000 60]).2 = 2 :=
  button_a_edges_pair 50000 (by decide)

/-! ## Theorems: SSD1306 text -/

theorem foldl_flatMap_eq {α β γ : Type} (f : β → γ → β) (g : α → List γ) (l : List α) (b : β) :
    (l.flatMap g).foldl f b = l.foldl (fun b a => (g a).foldl f b) b := by
  induction l generalizing b with
  | nil => rfl
  | cons a l ih => rw [List.flatMap_cons, List.foldl_append, ih, List.foldl_cons]

/-- The C expression `(line >> row) & 0x01`, read as a `bool`, is bit `row` of `line`. -/
theorem shift_and_one (line row : Nat) :
    ((line >>> row) &&& 0x01 != 0) = line.testBit row := by
  simp only [Nat.testBit, Nat.land_comm]

/-- The two loops of `ssd1306_draw_char_custom` issue the writes of `font_writes`. -/
theorem draw_glyph_eq {β : Type} (sp : β → Int → Int → Bool → β) (buffer : β)
    (x y : Int) (font : List Nat) (index : Nat) :
    draw_glyph sp buffer x y font index = apply_writes sp buffer (font_writes x y font index) := by
  have h5 : ([0, 1, 2, 3, 4] : List Nat) = List.range 5 := by decide
  have h7 : ([0, 1, 2, 3, 4, 5, 6] : List Nat) = List.range 7 := by decide
  unfold draw_glyph apply_writes font_writes
  rw [foldl_flatMap_eq, h5, h7]
  congr 1
  funext buf col
  rw [List.foldl_map]
  simp only [shift_and_one]

theorem apply_writes_log (t ws : List PixelWrite) : apply_writes log_pixel t ws = t ++ ws := by
  unfold apply_writes
  induction ws generalizing t with
  | nil => simp
  | cons w ws ih => rw [List.foldl_cons, ih]; simp [log_pixel]

theorem apply_writes_append {β : Type} (sp : β → Int → Int → Bool → β) (buffer : β)
    (ws ws2 : List PixelWrite) :
    apply_writes sp buffer (ws ++ ws2) = apply_writes sp (apply_writes sp buffer ws) ws2 := by
  simp only [apply_writes, List.foldl_append]

/-- Byte `col` of a five-byte glyph cut out of a font table. -/
theorem glyph_byte (font : List Nat) (index col : Nat) (hcol : col < 5) :
    ((font.drop (5 * index)).take 5).getD col 0 = font.getD (index * 5 + col) 0 := by
  rw [List.getD_eq_getElem?_getD, List.getD_eq_getElem?_getD, List.getElem?_take_of_lt hcol,
    List.getElem?_drop, Nat.mul_comm]

theorem font_writes_eq_of_bytes (x y : Int) (font : List Nat) (index : Nat) (g : List Nat)
    (hg : ∀ col, col < 5 → g.getD col 0 = font.getD (index * 5 + col) 0) :
    (List.range 5).flatMap (fun (col : Nat) =>
      (List.range 7).map fun (row : Nat) =>
        ({ x := x + col, y := y + row, pixel_on := (g.getD col 0).testBit row } : PixelWrite))
    = font_writes x y font index := by
  unfold font_writes
  apply List.flatMap_congr
  intro col hcol
  rw [hg col (List.mem_range.1 hcol)]

/-- For a letter, `glyph_writes` are the writes of the glyph in the table the
code selects. -/
theorem glyph_writes_upper (x y : Int) (c : Char) (h : 'A' ≤ c ∧ c ≤ 'Z') :
    glyph_writes x y c = font_writes x y font5x7_upper (c.toNat - 'A'.toNat) := by
  unfold glyph_writes glyph
  rw [if_pos h]
  exact font_writes_eq_of_bytes x y _ _ _ (fun col hcol => glyph_byte _ _ col hcol)

theorem glyph_writes_lower (x y : Int) (c : Char) (h : ¬ ('A' ≤ c ∧ c ≤ 'Z')) :
    glyph_writes x y c = font_writes x y font5x7_lower (c.toNat - 'a'.toNat) := by
  unfold glyph_writes glyph
  rw [if_neg h]
  exact font_writes_eq_of_bytes x y _ _ _ (fun col hcol => glyph_byte _ _ col hcol)

theorem is_letter_iff (c : Char) :
    is_letter c = true ↔ ('A' ≤ c ∧ c ≤ 'Z') ∨ ('a' ≤ c ∧ c ≤ 'z') := by
  simp [is_letter]

/-- What `ssd1306_draw_char_custom` does to the buffer, for any pixel routine. -/
theorem draw_char_eq {β : Type} (sp : β → Int → Int → Bool → β) (buffer : β)
    (x y : Int) (c : Char) :
    ssd1306_draw_char_custom sp buffer x y c
      = if is_letter c = true then apply_writes sp buffer (glyph_writes x y c) else buffer := by
  unfold ssd1306_draw_char_custom
  by_cases hu : 'A' ≤ c ∧ c ≤ 'Z'
  · rw [if_pos hu, if_pos ((is_letter_iff c).2 (Or.inl hu)), draw_glyph_eq,
      glyph_writes_upper x y c hu]
  · rw [if_neg hu]
    by_cases hl : 'a' ≤ c ∧ c ≤ 'z'
    · rw [if_pos hl, if_pos ((is_letter_iff c).2 (Or.inr hl)), draw_glyph_eq,
        glyph_writes_lower x y c hu]
    · have hn : ¬ is_letter c = true := fun h => ((is_letter_iff c).1 h).elim hu hl
      rw [if_neg hl, if_neg hn]
      split <;> rfl

/-- C7: for every letter `c` and every position `(x, y)`, the pixel writes of
`ssd1306_draw_char_custom` are, in order, one write for each `col` in `0..4`
and `row` in `0..6` at `(x+col, y+row)` whose value is bit `row` of byte `col`
of the glyph of `c`, the five bytes at offset `5*(c-'A')` of `font5x7_upper`
or `5*(c-'a')` of `font5x7_lower`; there are 35 of them and no other write,
and the buffer the routine returns is the pixel routine run on these writes. -/
theorem ssd1306_draw_char_custom_letter {β : Type} (sp : β → Int → Int → Bool → β)
    (buffer : β) (x y : Int) (c : Char) (hc : is_letter c = true) :
    draw_char_writes x y c = glyph_writes x y c ∧
    (glyph_writes x y c).length = 35 ∧
    (∀ w, w ∈ draw_char_writes x y c ↔
      ∃ col row : Nat, col < 5 ∧ row < 7 ∧
        w = { x := x + col, y := y + row, pixel_on := ((glyph c).getD col 0).testBit row }) ∧
    ssd1306_draw_char_custom sp buffer x y c = apply_writes sp buffer (glyph_writes x y c) := by
  have hlog : draw_char_writes x y c = glyph_writes x y c := by
    unfold draw_char_writes
    rw [draw_char_eq, if_pos hc, apply_writes_log, List.nil_append]
  refine ⟨hlog, ?_, ?_, ?_⟩
  · have hlen : ∀ (l : List Nat) (f : Nat → List PixelWrite),
        (∀ col, (f col).length = 7) → (l.flatMap f).length = 7 * l.length := by
      intro l f hf
      induction l with
      | nil => rfl
      | cons a l ih => rw [List.flatMap_cons, List.length_append, hf, ih, List.length_cons]; ring
    unfold glyph_writes
    rw [hlen _ _ (fun col => by rw [List.length_map, List.length_range]), List.length_range]
  · intro w
    rw [hlog]
    simp only [glyph_writes, List.mem_flatMap, List.mem_map, List.mem_range]
    constructor
    · rintro ⟨col, hcol, row, hrow, rfl⟩
      exact ⟨col, row, hcol, hrow, rfl⟩
    · rintro ⟨col, row, hcol, hrow, rfl⟩
      exact ⟨col, hcol, row, hrow, rfl⟩
  · rw [draw_char_eq, if_pos hc]

/-- Witness of C7 for the letter `H` at `(5, 0)`. -/
theorem ssd1306_draw_char_custom_letter_witness :
    draw_char_writes 5 0 'H' = glyph_writes 5 0 'H' ∧
    glyph 'H' = [0x7F, 0x08, 0x08, 0x08, 0x7F] :=
  ⟨(ssd1306_draw_char_custom_letter log_pixel [] 5 0 'H' (by decide)).1, by decide⟩

theorem apply_calls_append {β : Type} (dc : β → Int → Int → Char → β) (buffer : β)
    (cs cs2 : List CharCall) :
    apply_calls dc buffer (cs ++ cs2) = apply_calls dc (apply_calls dc buffer cs) cs2 := by
  simp only [apply_calls, List.foldl_append]

/-- The loop of `ssd1306_draw_string_custom` with any character routine is that
routine run on the calls the loop makes. -/
theorem draw_string_loop_eq_apply_calls {β : Type} (dc : β → Int → Int → Char → β)
    (orig_x : Int) (str : List Char) (buffer : β) (t : List CharCall) (x y : Int) :
    apply_calls dc buffer (draw_string_loop log_char orig_x t x y str)
      = draw_string_loop dc orig_x (apply_calls dc buffer t) x y str := by
  induction str generalizing t x y with
  | nil => rfl
  | cons c str ih =>
    unfold draw_string_loop
    by_cases hc : c = '\n'
    · rw [if_pos hc, if_pos hc, ih]
    · rw [if_neg hc, if_neg hc, ih]
      congr 1
      simp [apply_calls, log_char]

theorem getD_append_length (p r : List Char) (c : Char) :
    (p ++ c :: r).getD p.length ' ' = c := by
  induction p with
  | nil => rfl
  | cons a p ih => simpa using ih

theorem newlines_before_prefix (p r : List Char) :
    newlines_before (p ++ r) p.length = p.count '\n' := by
  unfold newlines_before
  rw [List.take_left]

theorem chars_since_newline_prefix (p r : List Char) :
    chars_since_newline (p ++ r) p.length
      = (p.reverse.takeWhile fun c => c != '\n').length := by
  unfold chars_since_newline
  rw [List.take_left]

/-- The calls of the loop after the prefix `p` of the string has been read, the
cursor standing where the claim puts it. -/
theorem draw_string_loop_calls (x0 y0 : Int) (r p : List Char) (t : List CharCall) :
    draw_string_loop log_char x0 t
        (x0 + 6 * ((p.reverse.takeWhile fun c => c != '\n').length : Int))
        (y0 + 8 * (p.count '\n' : Int)) r
      = t ++ (List.range r.length).filterMap
          (fun i => string_call_at x0 y0 (p ++ r) (p.length + i)) := by
  induction r generalizing p t with
  | nil => simp [draw_string_loop]
  | cons c r ih =>
    have hassoc : p ++ c :: r = (p ++ [c]) ++ r := by simp
    have hshift : (fun i => string_call_at x0 y0 (p ++ c :: r) (p.length + (i + 1)))
        = fun i => string_call_at x0 y0 ((p ++ [c]) ++ r) ((p ++ [c]).length + i) := by
      funext i
      rw [hassoc, List.length_append, List.length_singleton, Nat.add_assoc, Nat.add_comm 1 i]
    have hhead : string_call_at x0 y0 (p ++ c :: r) (p.length + 0)
        = if c = '\n' then none
          else some { x := x0 + 6 * ((p.reverse.takeWhile fun c => c != '\n').length : Int),
                      y := y0 + 8 * (p.count '\n' : Int), c := c } := by
      unfold string_call_at
      rw [Nat.add_zero, getD_append_length, newlines_before_prefix,
        chars_since_newline_prefix]
    rw [List.length_cons, List.range_succ_eq_map, List.filterMap_cons, hhead,
      List.filterMap_map]
    have hcomp : ((fun i => string_call_at x0 y0 (p ++ c :: r) (p.length + i)) ∘ Nat.succ)
        = fun i => string_call_at x0 y0 (p ++ c :: r) (p.length + (i + 1)) := rfl
    rw [hcomp, hshift]
    unfold draw_string_loop
    by_cases hc : c = '\n'
    · have hk : ((p ++ [c]).reverse.takeWhile fun c => c != '\n').length = 0 := by
        rw [List.reverse_append]
        simp [hc]
      have hj : (p ++ [c]).count '\n' = p.count '\n' + 1 := by
        rw [List.count_append]
        simp [hc]
      have hrec := ih (p ++ [c]) t
      rw [hk, hj] at hrec
      rw [if_pos hc, if_pos hc]
      have hx : x0 + 6 * ((0 : Nat) : Int) = x0 := by simp
      have hy : y0 + 8 * ((p.count '\n' + 1 : Nat) : Int)
          = y0 + 8 * (p.count '\n' : Int) + 8 := by push_cast; ring
      rw [hx, hy] at hrec
      exact hrec
    · have hk : ((p ++ [c]).reverse.takeWhile fun c => c != '\n').length
          = (p.reverse.takeWhile fun c => c != '\n').length + 1 := by
        rw [List.reverse_append]
        simp [hc]
      have hj : (p ++ [c]).count '\n' = p.count '\n' := by
        rw [List.count_append, List.count_cons]
        simp [hc]
      have hrec := ih (p ++ [c])
        (log_char t (x0 + 6 * ((p.reverse.takeWhile fun c => c != '\n').length : Int))
          (y0 + 8 * (p.count '\n' : Int)) c)
      rw [hk, hj] at hrec
      rw [if_neg hc, if_neg hc]
      have hx : x0 + 6 * (((p.reverse.takeWhile fun c => c != '\n').length + 1 : Nat) : Int)
          = x0 + 6 * ((p.reverse.takeWhile fun c => c != '\n').length : Int) + 6 := by
        push_cast; ring
      rw [hx] at hrec
      rw [hrec]
      simp [log_char]

/-- C8: the calls `ssd1306_draw_string_custom` makes to the character routine
are, left to right, one for each character of `s` that is not a newline, at
`(x0 + 6k, y0 + 8j)` where `j` newlines precede the character and `k`
characters stand between the last of them (or the start) and it; a newline
makes no call.  The buffer returned is `ssd1306_draw_char_custom` run on
these calls in order. -/
theorem ssd1306_draw_string_custom_calls {β : Type} (sp : β → Int → Int → Bool → β)
    (buffer : β) (x0 y0 : Int) (s : List Char) :
    draw_string_calls x0 y0 s = string_calls x0 y0 s ∧
    ssd1306_draw_string_custom sp buffer x0 y0 s
      = apply_calls (ssd1306_draw_char_custom sp) buffer (string_calls x0 y0 s) := by
  have hcalls : draw_string_calls x0 y0 s = string_calls x0 y0 s := by
    have h := draw_string_loop_calls x0 y0 s [] []
    simp only [List.reverse_nil, List.takeWhile_nil, List.length_nil, List.count_nil,
      Nat.cast_zero, mul_zero, add_zero, List.nil_append, Nat.zero_add] at h
    exact h
  refine ⟨hcalls, ?_⟩
  have h := draw_string_loop_eq_apply_calls (ssd1306_draw_char_custom sp) x0 s buffer [] x0 y0
  rw [← hcalls]
  exact h.symm

/-- The cleared buffer has no pixel on. -/
theorem get_pixel_zero (px py : Int) : ssd1306_get_pixel ssd_zero px py = false := by
  unfold ssd1306_get_pixel ssd_zero
  split
  · rw [List.getD_eq_getElem?_getD, List.getElem?_replicate]
    split <;> simp
  · rfl

/-- Setting or clearing bit `k` of a byte turns no other bit on. -/
theorem testBit_after_write (byte k j : Nat) (v : Bool)
    (h : (if v then byte ||| (1 <<< k) else byte &&& (255 ^^^ (1 <<< k))).testBit j = true) :
    byte.testBit j = true ∨ (k = j ∧ v = true) := by
  cases v with
  | true =>
    simp only [if_true, Nat.testBit_or, Nat.one_shiftLeft, Nat.testBit_two_pow,
      Bool.or_eq_true, decide_eq_true_eq] at h
    rcases h with h | h
    · exact Or.inl h
    · exact Or.inr ⟨h, rfl⟩
  | false =>
    simp only [Bool.false_eq_true, if_false, Nat.testBit_and, Bool.and_eq_true] at h
    exact Or.inl h.1

/-- A write inside the display turns on at most the pixel it addresses. -/
theorem get_pixel_set_pixel (b : Buffer) (x y : Int) (v : Bool) (px py : Int)
    (hin : 0 ≤ x ∧ x < 128 ∧ 0 ≤ y ∧ y < 64)
    (hon : ssd1306_get_pixel (ssd1306_set_pixel b x y v) px py = true) :
    ssd1306_get_pixel b px py = true ∨ (x = px ∧ y = py ∧ v = true) := by
  unfold ssd1306_set_pixel at hon
  rw [if_pos hin] at hon
  unfold ssd1306_get_pixel at hon ⊢
  by_cases hp : 0 ≤ px ∧ px < 128 ∧ 0 ≤ py ∧ py < 64
  · rw [if_pos hp] at hon
    rw [if_pos hp]
    rw [List.getD_eq_getElem?_getD, List.getElem?_set] at hon
    by_cases hidx : y.toNat / 8 * 128 + x.toNat = py.toNat / 8 * 128 + px.toNat
    · rw [if_pos hidx] at hon
      by_cases hlen : y.toNat / 8 * 128 + x.toNat < b.length
      · rw [if_pos hlen, Option.getD_some] at hon
        rcases testBit_after_write _ _ _ _ hon with h | ⟨hk, hv⟩
        · left
          rw [← hidx]
          exact h
        · right
          refine ⟨?_, ?_, hv⟩ <;> omega
      · rw [if_neg hlen] at hon
        simp at hon
    · rw [if_neg hidx] at hon
      left
      rw [List.getD_eq_getElem?_getD]
      exact hon
  · rw [if_neg hp] at hon
    exact absurd hon (by simp)

/-- After a run of writes that are all inside the display, a pixel that is on
was on before or was the target of a write with value on. -/
theorem get_pixel_apply_writes (ws : List PixelWrite) (b : Buffer) (px py : Int)
    (hin : ∀ w ∈ ws, 0 ≤ w.x ∧ w.x < 128 ∧ 0 ≤ w.y ∧ w.y < 64)
    (hon : ssd1306_get_pixel (apply_writes ssd1306_set_pixel b ws) px py = true) :
    ssd1306_get_pixel b px py = true ∨
      ∃ w ∈ ws, w.x = px ∧ w.y = py ∧ w.pixel_on = true := by
  induction ws generalizing b with
  | nil => exact Or.inl hon
  | cons w ws ih =>
    have hrest : ∀ w2 ∈ ws, 0 ≤ w2.x ∧ w2.x < 128 ∧ 0 ≤ w2.y ∧ w2.y < 64 :=
      fun w2 hw2 => hin w2 (List.mem_cons_of_mem _ hw2)
    have hstep : apply_writes ssd1306_set_pixel b (w :: ws)
        = apply_writes ssd1306_set_pixel (ssd1306_set_pixel b w.x w.y w.pixel_on) ws := rfl
    rw [hstep] at hon
    rcases ih _ hrest hon with h | ⟨w2, hw2, h⟩
    · rcases get_pixel_set_pixel b w.x w.y w.pixel_on px py
          (hin w (List.mem_cons_self _ _)) h with h1 | h1
      · exact Or.inl h1
      · exact Or.inr ⟨w, List.mem_cons_self _ _, h1⟩
    · exact Or.inr ⟨w2, List.mem_cons_of_mem _ hw2, h⟩

/-- The writes of one character: those of its glyph for a letter, none otherwise. -/
theorem draw_char_writes_eq (x y : Int) (c : Char) :
    draw_char_writes x y c = if is_letter c = true then glyph_writes x y c else [] := by
  unfold draw_char_writes
  rw [draw_char_eq]
  split
  · rw [apply_writes_log, List.nil_append]
  · rfl

/-- With any pixel routine, `ssd1306_draw_char_custom` is that routine run on the
writes the character issues. -/
theorem draw_char_eq_apply_writes {β : Type} (sp : β → Int → Int → Bool → β) (buffer : β)
    (x y : Int) (c : Char) :
    ssd1306_draw_char_custom sp buffer x y c
      = apply_writes sp buffer (draw_char_writes x y c) := by
  rw [draw_char_eq, draw_char_writes_eq]
  split <;> rfl

theorem apply_calls_eq_apply_writes {β : Type} (sp : β → Int → Int → Bool → β)
    (cs : List CharCall) (buffer : β) :
    apply_calls (ssd1306_draw_char_custom sp) buffer cs
      = apply_writes sp buffer (cs.flatMap fun k => draw_char_writes k.x k.y k.c) := by
  induction cs generalizing buffer with
  | nil => rfl
  | cons k cs ih =>
    have hstep : apply_calls (ssd1306_draw_char_custom sp) buffer (k :: cs)
        = apply_calls (ssd1306_draw_char_custom sp)
            (ssd1306_draw_char_custom sp buffer k.x k.y k.c) cs := rfl
    rw [hstep, ih, List.flatMap_cons, apply_writes_append, draw_char_eq_apply_writes]

/-- The buffer `ssd1306_draw_string_custom` returns is `ssd1306_draw_char_custom`
run on the calls of `string_calls`, for any pixel routine. -/
theorem draw_string_eq_apply_calls {β : Type} (sp : β → Int → Int → Bool → β)
    (buffer : β) (x0 y0 : Int) (s : List Char) :
    ssd1306_draw_string_custom sp buffer x0 y0 s
      = apply_calls (ssd1306_draw_char_custom sp) buffer (string_calls x0 y0 s) := by
  have hloop := draw_string_loop_calls x0 y0 s [] []
  simp only [List.reverse_nil, List.takeWhile_nil, List.length_nil, List.count_nil,
    Nat.cast_zero, mul_zero, add_zero, List.nil_append, Nat.zero_add] at hloop
  have h := draw_string_loop_eq_apply_calls (ssd1306_draw_char_custom sp) x0 s buffer [] x0 y0
  rw [hloop] at h
  exact h.symm

/-- With any pixel routine, `ssd1306_draw_string_custom` is that routine run on
the writes the string issues. -/
theorem draw_string_eq_apply_writes {β : Type} (sp : β → Int → Int → Bool → β)
    (buffer : β) (x0 y0 : Int) (s : List Char) :
    ssd1306_draw_string_custom sp buffer x0 y0 s
      = apply_writes sp buffer (draw_string_writes x0 y0 s) ∧
    draw_string_writes x0 y0 s
      = (string_calls x0 y0 s).flatMap fun k => draw_char_writes k.x k.y k.c := by
  have hw : draw_string_writes x0 y0 s
      = (string_calls x0 y0 s).flatMap fun k => draw_char_writes k.x k.y k.c := by
    unfold draw_string_writes
    rw [draw_string_eq_apply_calls log_pixel [] x0 y0 s,
      apply_calls_eq_apply_writes, apply_writes_log, List.nil_append]
  refine ⟨?_, hw⟩
  rw [draw_string_eq_apply_calls sp buffer x0 y0 s, apply_calls_eq_apply_writes, hw]

/-- In a string without newline the call for position `i` is at `(x0 + 6i, y0)`. -/
theorem string_calls_no_newline (x0 y0 : Int) (s : List Char)
    (hnl : ∀ c ∈ s, c ≠ '\n') (k : CharCall) (hk : k ∈ string_calls x0 y0 s) :
    ∃ i, i < s.length ∧ k = { x := x0 + 6 * (i : Int), y := y0, c := s.getD i ' ' } := by
  unfold string_calls at hk
  obtain ⟨i, hi, hcall⟩ := List.mem_filterMap.1 hk
  have hi2 : i < s.length := List.mem_range.1 hi
  refine ⟨i, hi2, ?_⟩
  have hj : newlines_before s i = 0 := by
    unfold newlines_before
    exact List.count_eq_zero_of_not_mem
      (fun h => hnl _ (List.mem_of_mem_take h) rfl)
  have hcol : chars_since_newline s i = i := by
    unfold chars_since_newline
    have hall : ∀ c ∈ (s.take i).reverse, (fun c => c != '\n') c = true := by
      intro c hc
      have hmem : c ∈ s := List.mem_of_mem_take (List.mem_reverse.1 hc)
      simpa using hnl c hmem
    rw [List.takeWhile_eq_self_iff.2 hall, List.length_reverse, List.length_take]
    omega
  unfold string_call_at at hcall
  rw [hj, hcol] at hcall
  split at hcall
  · exact absurd hcall (by simp)
  · have h := (Option.some.inj hcall).symm
    rw [h]
    simp

/-- C9: a string `s` without newline is drawn by `ssd1306_draw_string_custom` at
`(x0, y0)` into the all-zero framebuffer, every write falling inside the
128x64 display.  Then every pixel `(px, py)` that is on afterwards lies in rows
`[y0, y0+7)` and in columns `[x0+6k, x0+6k+5)` for a position `k` of `s` that
holds a letter; no other pixel is on. -/
theorem draw_string_pixels_on (x0 y0 : Int) (s : List Char)
    (hnl : ∀ c ∈ s, c ≠ '\n')
    (hin : ∀ w ∈ draw_string_writes x0 y0 s, 0 ≤ w.x ∧ w.x < 128 ∧ 0 ≤ w.y ∧ w.y < 64)
    (px py : Int)
    (hon : ssd1306_get_pixel
      (ssd1306_draw_string_custom ssd1306_set_pixel ssd_zero x0 y0 s) px py = true) :
    y0 ≤ py ∧ py < y0 + 7 ∧
      ∃ k, k < s.length ∧ is_letter (s.getD k ' ') = true ∧
        x0 + 6 * (k : Int) ≤ px ∧ px < x0 + 6 * (k : Int) + 5 := by
  rw [(draw_string_eq_apply_writes ssd1306_set_pixel ssd_zero x0 y0 s).1] at hon
  rcases get_pixel_apply_writes _ _ px py hin hon with h | ⟨w, hw, hx, hy, _⟩
  · rw [get_pixel_zero] at h
    exact absurd h (by simp)
  · rw [(draw_string_eq_apply_writes ssd1306_set_pixel ssd_zero x0 y0 s).2] at hw
    obtain ⟨call, hcall, hwc⟩ := List.mem_flatMap.1 hw
    obtain ⟨i, hi, rfl⟩ := string_calls_no_newline x0 y0 s hnl call hcall
    rw [draw_char_writes_eq] at hwc
    by_cases hl : is_letter (s.getD i ' ') = true
    · rw [if_pos hl] at hwc
      simp only [glyph_writes, List.mem_flatMap, List.mem_map, List.mem_range] at hwc
      obtain ⟨col, hcol, row, hrow, rfl⟩ := hwc
      simp only at hx hy
      refine ⟨by omega, by omega, i, hi, hl, by omega, by omega⟩
    · rw [if_neg hl] at hwc
      exact absurd hwc (List.not_mem_nil _)

/-- Witness of C9: `"Hi"` drawn at `(5, 0)` into the cleared buffer turns pixel
`(5, 0)` on, and sets pixels only in rows `[0, 7)` and in columns `[5, 10)`
(for `H`) or `[11, 16)` (for `i`). -/
theorem draw_string_pixels_on_witness :
    ssd1306_get_pixel
        (ssd1306_draw_string_custom ssd1306_set_pixel ssd_zero 5 0 ['H', 'i']) 5 0 = true ∧
    ∀ px py : Int,
      ssd1306_get_pixel
        (ssd1306_draw_string_custom ssd1306_set_pixel ssd_zero 5 0 ['H', 'i']) px py = true →
      0 ≤ py ∧ py < 7 ∧ ((5 ≤ px ∧ px < 10) ∨ (11 ≤ px ∧ px < 16)) := by
  refine ⟨by decide, ?_⟩
  intro px py hon
  obtain ⟨h1, h2, k, hk, _, h3, h4⟩ :=
    draw_string_pixels_on 5 0 ['H', 'i'] (by decide) (by decide) px py hon
  have hk2 : k = 0 ∨ k = 1 := by
    simp only [List.length_cons, List.length_nil] at hk
    omega
  refine ⟨h1, by omega, ?_⟩
  rcases hk2 with rfl | rfl
  · left; omega
  · right; omega

/-! ## Theorems: clear, flush, repaint and main loop -/

/-- C11: for every character `c` that is not a letter `A`-`Z` or `a`-`z` and
every position, `ssd1306_draw_char_custom` issues no pixel write, and the
buffer it returns is the buffer it was given, whatever the pixel routine. -/
theorem ssd1306_draw_char_custom_non_letter {β : Type} (sp : β → Int → Int → Bool → β)
    (buffer : β) (x y : Int) (c : Char) (hc : is_letter c = false) :
    draw_char_writes x y c = [] ∧ ssd1306_draw_char_custom sp buffer x y c = buffer := by
  have hn : ¬ is_letter c = true := by rw [hc]; decide
  constructor
  · rw [draw_char_writes_eq, if_neg hn]
  · rw [draw_char_eq, if_neg hn]

/-- Witness of C11: a space, a digit and a newline drawn at `(5, 0)` write
nothing and leave the framebuffer as it was. -/
theorem ssd1306_draw_char_custom_non_letter_witness :
    (draw_char_writes 5 0 ' ' = [] ∧
      ssd1306_draw_char_custom ssd1306_set_pixel ssd_zero 5 0 ' ' = ssd_zero) ∧
    (draw_char_writes 5 0 '7' = [] ∧
      ssd1306_draw_char_custom ssd1306_set_pixel ssd_zero 5 0 '7' = ssd_zero) ∧
    (draw_char_writes 5 0 '\n' = [] ∧
      ssd1306_draw_char_custom ssd1306_set_pixel ssd_zero 5 0 '\n' = ssd_zero) :=
  ⟨ssd1306_draw_char_custom_non_letter ssd1306_set_pixel ssd_zero 5 0 ' ' (by decide),
   ssd1306_draw_char_custom_non_letter ssd1306_set_pixel ssd_zero 5 0 '7' (by decide),
   ssd1306_draw_char_custom_non_letter ssd1306_set_pixel ssd_zero 5 0 '\n' (by decide)⟩

/-- The words emitted for a frame whose entries are all `(0,0,0)`. -/
theorem triples_of_zero (l : List (Fin LED_COUNT)) :
    (l.flatMap fun _ => [(0 : Nat), 0, 0]) = List.replicate (3 * l.length) 0 := by
  induction l with
  | nil => rfl
  | cons a l ih =>
    rw [List.flatMap_cons, ih, List.length_cons]
    have h : 3 * (l.length + 1) = 3 * l.length + 1 + 1 + 1 := by ring
    rw [h]
    rfl

/-- C12: `npClear` makes every one of the 25 frame entries `(0,0,0)` whatever the
frame was, so a second `npClear` changes nothing, and `npWrite` after
`npClear` emits 75 words, all zero: 25 pixels `(0,0,0)`. -/
theorem npClear_then_npWrite (s : NpState) :
    (∀ p : Fin LED_COUNT, (npClear s).leds p = { G := 0, R := 0, B := 0 }) ∧
    npClear (npClear s) = npClear s ∧
    npWrite_emitted (npClear s) = List.replicate 75 0 ∧
    (npWrite (npClear s)).tx = s.tx ++ List.replicate 75 0 := by
  have hem : npWrite_emitted (npClear s) = List.replicate 75 0 := by
    rw [npWrite_emitted_eq]
    have h := triples_of_zero (List.finRange LED_COUNT)
    rw [List.length_finRange] at h
    exact h
  refine ⟨fun _ => rfl, rfl, hem, ?_⟩
  rw [npWrite_eq, ← npWrite_emitted_eq, hem]
  rfl

/-- C13: `npWrite` leaves the LED frame as it is, and a second `npWrite` right
after the first emits the same 75 words as the first. -/
theorem npWrite_twice (s : NpState) :
    (npWrite s).leds = s.leds ∧
    npWrite_emitted (npWrite s) = npWrite_emitted s ∧
    (npWrite (npWrite s)).tx = s.tx ++ npWrite_emitted s ++ npWrite_emitted s := by
  have hleds : (npWrite s).leds = s.leds := by rw [npWrite_eq]
  have hem : npWrite_emitted (npWrite s) = npWrite_emitted s := by
    rw [npWrite_emitted_eq, npWrite_emitted_eq, hleds]
  refine ⟨hleds, hem, ?_⟩
  rw [npWrite_eq (npWrite s), ← npWrite_emitted_eq (npWrite s), hem, npWrite_eq s,
    ← npWrite_emitted_eq s]

/-- Clearing the whole 1024-byte framebuffer gives the all-zero buffer. -/
theorem memset_zero_full (buf : Buffer) (h : buf.length = 1024) :
    memset_zero buf ssd1306_buffer_length = ssd_zero := by
  unfold memset_zero ssd1306_buffer_length ssd_zero
  rw [h, List.drop_of_length_le (by omega), Nat.min_self, List.append_nil]

/-- The framebuffer `displayOnSSD1306` leaves, for a 1024-byte buffer before. -/
theorem displayOnSSD1306_ssd (d : Display) (message : List Char) (h : d.ssd.length = 1024) :
    (displayOnSSD1306 d message).ssd
      = ssd1306_draw_string_custom ssd1306_set_pixel ssd_zero 5 0 message := by
  unfold displayOnSSD1306 render_on_display
  simp only [memset_zero_full d.ssd h]

/-- C14: every render is a full repaint.  For every message and any two prior
contents of the 1024-byte framebuffer, `displayOnSSD1306(message)` leaves the
same framebuffer, the one `ssd1306_draw_string_custom` draws at `(5, 0)` into
the all-zero buffer, and that buffer is the frame handed to the display. -/
theorem displayOnSSD1306_full_repaint (d1 d2 : Display) (message : List Char)
    (h1 : d1.ssd.length = 1024) (h2 : d2.ssd.length = 1024) :
    (displayOnSSD1306 d1 message).ssd = (displayOnSSD1306 d2 message).ssd ∧
    (displayOnSSD1306 d1 message).ssd
      = ssd1306_draw_string_custom ssd1306_set_pixel ssd_zero 5 0 message ∧
    (displayOnSSD1306 d1 message).rendered
      = d1.rendered ++ [ssd1306_draw_string_custom ssd1306_set_pixel ssd_zero 5 0 message] := by
  refine ⟨?_, displayOnSSD1306_ssd d1 message h1, ?_⟩
  · rw [displayOnSSD1306_ssd d1 message h1, displayOnSSD1306_ssd d2 message h2]
  · have h := displayOnSSD1306_ssd d1 message h1
    unfold displayOnSSD1306 render_on_display at h ⊢
    simp only at h ⊢
    rw [h]

/-- Witness of C14: `"Hi"` rendered over the all-zero buffer and over the
all-ones buffer leaves the same framebuffer. -/
theorem displayOnSSD1306_full_repaint_witness :
    (displayOnSSD1306 { ssd := ssd_zero, rendered := [], messages := [] } ['H', 'i']).ssd
      = (displayOnSSD1306 { ssd := List.replicate 1024 255, rendered := [], messages := [] }
          ['H', 'i']).ssd :=
  (displayOnSSD1306_full_repaint
    { ssd := ssd_zero, rendered := [], messages := [] }
    { ssd := List.replicate 1024 255, rendered := [], messages := [] }
    ['H', 'i'] (List.length_replicate _ _) (List.length_replicate _ _)).1

/-- C15: the poll of a button in the loop of `main` takes the event.  When the
pending flag of the button is `true`, the poll leaves it `false` and negates
the indicator state of that button once (`led_green_state` for A,
`led_blue_state` for B); when the flag is `false`, the poll changes nothing
at all; and the poll of one button leaves the flag, the indicator state and
the handler's `last_time` of the other button as they were. -/
theorem main_poll_take (st : Main) :
    (st.buttons.button_a_pressed = true →
      (main_poll_a st).buttons.button_a_pressed = false ∧
      (main_poll_a st).buttons.led_green_state = !st.buttons.led_green_state) ∧
    (st.buttons.button_a_pressed = false → main_poll_a st = st) ∧
    ((main_poll_a st).buttons.button_b_pressed = st.buttons.button_b_pressed ∧
      (main_poll_a st).buttons.led_blue_state = st.buttons.led_blue_state ∧
      (main_poll_a st).buttons.last_time_b = st.buttons.last_time_b) ∧
    (st.buttons.button_b_pressed = true →
      (main_poll_b st).buttons.button_b_pressed = false ∧
      (main_poll_b st).buttons.led_blue_state = !st.buttons.led_blue_state) ∧
    (st.buttons.button_b_pressed = false → main_poll_b st = st) ∧
    ((main_poll_b st).buttons.button_a_pressed = st.buttons.button_a_pressed ∧
      (main_poll_b st).buttons.led_green_state = st.buttons.led_green_state ∧
      (main_poll_b st).buttons.last_time_a = st.buttons.last_time_a) := by
  refine ⟨fun h => ?_, fun h => ?_, ?_, fun h => ?_, fun h => ?_, ?_⟩
  · simp only [main_poll_a, h, if_true, and_self]
  · simp [main_poll_a, h]
  · unfold main_poll_a
    split <;> simp
  · simp only [main_poll_b, h, if_true, and_self]
  · simp [main_poll_b, h]
  · unfold main_poll_b
    split <;> simp

/-- Witness of C15: with the flag of button A set, the poll of A clears the flag
and negates the green state; with no flag set the poll changes nothing. -/
theorem main_poll_take_witness :
    ((main_poll_a { Main.init with
          buttons := { Buttons.init with button_a_pressed := true } }).buttons.button_a_pressed
        = false ∧
      (main_poll_a { Main.init with
          buttons := { Buttons.init with button_a_pressed := true } }).buttons.led_green_state
        = !Buttons.init.led_green_state) ∧
    main_poll_a Main.init = Main.init :=
  ⟨(main_poll_take { Main.init with
      buttons := { Buttons.init with button_a_pressed := true } }).1 rfl,
   (main_poll_take Main.init).2.1 rfl⟩

/-- Cutting a string at `strcspn` keeps its longest prefix free of the rejected
characters. -/
theorem take_strcspn (s reject : List Char) :
    s.take (strcspn s reject)
      = s.takeWhile fun c => !(decide (c = NUL) || reject.contains c) := by
  induction s with
  | nil => rfl
  | cons c s ih =>
    unfold strcspn
    rw [List.takeWhile_cons]
    by_cases h : c = NUL ∨ reject.contains c = true
    · have h2 : ¬ (!(decide (c = NUL) || reject.contains c)) = true := by
        rcases h with h | h
        · rw [decide_eq_true h, Bool.true_or]; decide
        · rw [h, Bool.or_true]; decide
      rw [if_pos h, if_neg h2]
      rfl
    · have h2 : (!(decide (c = NUL) || reject.contains c)) = true := by
        rw [decide_eq_false (fun hn => h (Or.inl hn)),
          Bool.eq_false_iff.2 (fun hr => h (Or.inr hr))]
        decide
      rw [if_neg h, if_pos h2, List.take_succ_cons, ih]

/-- The text `main` keeps holds no NUL byte. -/
theorem take_strcspn_no_nul (input reject : List Char) (c : Char)
    (hc : c ∈ input.take (strcspn input reject)) : c ≠ NUL := by
  rw [take_strcspn] at hc
  have h := List.mem_takeWhile_imp hc
  intro hn
  simp [hn] at h

/-- Storing NUL at index `strcspn` of the buffer leaves the string made of the
bytes before that index. -/
theorem main_text_eq (input : List Char) :
    main_text input = input.take (strcspn input ['\r', '\n']) := by
  unfold main_text
  induction input with
  | nil => decide
  | cons c s ih =>
    unfold strcspn
    by_cases h : c = NUL ∨ ['\r', '\n'].contains c = true
    · rw [if_pos h]
      simp [c_string, NUL]
    · rw [if_neg h]
      have hc : (c != NUL) = true := by
        simp only [not_or] at h
        simp [h.1]
      rw [List.cons_append, List.set_cons_succ, List.take_succ_cons]
      unfold c_string
      rw [List.takeWhile_cons, if_pos hc]
      exact congrArg (List.cons c) ih

/-- Cut at `strcspn`, the C string of the buffer and the buffer agree. -/
theorem c_string_take_strcspn (input reject : List Char) :
    (c_string input).take (strcspn input reject) = input.take (strcspn input reject) := by
  induction input with
  | nil => rfl
  | cons c s ih =>
    unfold strcspn
    by_cases h : c = NUL ∨ reject.contains c = true
    · rw [if_pos h]
      rfl
    · rw [if_neg h]
      have hc : (c != NUL) = true := by
        simp only [not_or] at h
        simp [h.1]
      unfold c_string
      rw [List.takeWhile_cons, if_pos hc, List.take_succ_cons, List.take_succ_cons]
      exact congrArg (List.cons c) ih

/-- The text `main` keeps of a line holds neither a carriage return nor a line feed. -/
theorem take_strcspn_no_crlf (input : List Char) (c : Char)
    (hc : c ∈ input.take (strcspn input ['\r', '\n'])) : c ≠ '\r' ∧ c ≠ '\n' := by
  rw [take_strcspn] at hc
  have h := List.mem_takeWhile_imp hc
  constructor
  · intro hn
    simp [hn] at h
  · intro hn
    simp [hn] at h

/-- For a digit `displayNumber` ends without a fault. -/
theorem displayNumber_ok (s : NpState) (d : Int) (h0 : 0 ≤ d) (h9 : d ≤ 9) :
    ∃ s2, displayNumber s d = .ok s2 := by
  have hd : d.toNat < 10 := by omega
  have hcast : ((d.toNat : Nat) : Int) = d := Int.toNat_of_nonneg h0
  have key := displayNumber_loops ⟨d.toNat, hd⟩
  simp only [hcast] at key
  rw [displayNumber_eq]
  cases hloop : [0, 1, 2, 3, 4].foldlM (displayNumber_row d) zeroState with
  | error e => rw [hloop] at key; simp [okAnd] at key
  | ok s1 => exact ⟨npWrite (s1.withTx s.tx), rfl⟩

/-- The value `main` passes to `displayNumber` for a digit character. -/
theorem digit_value_range (c : Char) (h0 : '0' ≤ c) (h9 : c ≤ '9') :
    0 ≤ digit_value c ∧ digit_value c ≤ 9 := by
  have h0n : ('0' : Char).toNat ≤ c.toNat := h0
  have h9n : c.toNat ≤ ('9' : Char).toNat := h9
  have e0 : ('0' : Char).toNat = 48 := rfl
  have e9 : ('9' : Char).toNat = 57 := rfl
  unfold digit_value
  omega

/-- What `main` does with a line: nothing when the text kept is empty, otherwise
one call of `displayOnSSD1306` with that text, the LED matrix being touched
only by `displayNumber`. -/
theorem main_input_some (st : Main) (input : List Char) :
    (input.take (strcspn input ['\r', '\n']) = [] → main_input st (some input) = .ok st) ∧
    (input.take (strcspn input ['\r', '\n']) ≠ [] →
      ∃ st2, main_input st (some input) = .ok st2 ∧
        st2.display = displayOnSSD1306 st.display (input.take (strcspn input ['\r', '\n'])) ∧
        st2.buttons = st.buttons) := by
  constructor
  · intro h
    simp only [main_input, main_text_eq, h, List.length_nil, gt_iff_lt, lt_self_iff_false,
      if_false]
    rfl
  · intro h
    have hlen : (input.take (strcspn input ['\r', '\n'])).length > 0 :=
      List.length_pos.2 h
    unfold main_input
    simp only [main_text_eq, hlen, if_true]
    by_cases hd : '0' ≤ (input.take (strcspn input ['\r', '\n'])).headD ' ' ∧
        (input.take (strcspn input ['\r', '\n'])).headD ' ' ≤ '9'
    · obtain ⟨r0, r9⟩ := digit_value_range _ hd.1 hd.2
      obtain ⟨np2, hnp⟩ := displayNumber_ok st.np
        (digit_value ((input.take (strcspn input ['\r', '\n'])).headD ' ')) r0 r9
      rw [if_pos hd]
      simp only [hnp]
      exact ⟨_, rfl, rfl, rfl⟩
    · rw [if_neg hd]
      exact ⟨_, rfl, rfl, rfl⟩

/-- The messages logged by `displayOnSSD1306`. -/
theorem displayOnSSD1306_messages (d : Display) (message : List Char) :
    (displayOnSSD1306 d message).messages = d.messages ++ [message] := rfl

/-- C16 fails as stated on the line `a`, CR, `b`, LF, which `fgets` hands over
whole: the text forwarded to `displayOnSSD1306` is `a`, the line cut at its
first CR, while the line with its CR and LF removed is `ab`. -/
theorem main_input_cuts_at_first_cr :
    (fgets 20 ['a', '\r', 'b', '\n']).1 = some ['a', '\r', 'b', '\n'] ∧
    strip_crlf ['a', '\r', 'b', '\n'] = ['a', 'b'] ∧
    ∃ st2, main_input Main.init (some ['a', '\r', 'b', '\n']) = .ok st2 ∧
      st2.display.messages = [['a']] := by
  refine ⟨by decide, by decide, ?_⟩
  have htext : ['a', '\r', 'b', '\n'].take (strcspn ['a', '\r', 'b', '\n'] ['\r', '\n'])
      = ['a'] := by decide
  obtain ⟨st2, hrun, hdisp, _⟩ :=
    (main_input_some Main.init ['a', '\r', 'b', '\n']).2 (by rw [htext]; decide)
  refine ⟨st2, hrun, ?_⟩
  rw [hdisp, displayOnSSD1306_messages, htext]
  rfl

/-- The text `main` keeps is the C string of the buffer cut at its first
carriage return or line feed. -/
theorem take_strcspn_c_string (input : List Char) :
    input.take (strcspn input ['\r', '\n'])
      = (c_string input).takeWhile fun c => c != '\r' && c != '\n' := by
  induction input with
  | nil => rfl
  | cons c s ih =>
    unfold strcspn c_string
    by_cases hn : c = NUL
    · have hc : ¬ (c != NUL) = true := by rw [hn]; decide
      rw [if_pos (Or.inl hn), List.takeWhile_cons, if_neg hc]
      rfl
    · have hc : (c != NUL) = true := by simp [hn]
      rw [List.takeWhile_cons, if_pos hc, List.takeWhile_cons]
      by_cases hr : ['\r', '\n'].contains c = true
      · have hp : ¬ (c != '\r' && c != '\n') = true := by
          simp only [List.contains_cons, List.contains_nil, Bool.or_false, Bool.or_eq_true,
            beq_iff_eq] at hr
          rcases hr with h | h <;> rw [h] <;> decide
        rw [if_pos (Or.inr hr), if_neg hp]
        rfl
      · have hp : (c != '\r' && c != '\n') = true := by
          simp only [List.contains_cons, List.contains_nil, Bool.or_false, Bool.or_eq_true,
            beq_iff_eq, not_or] at hr
          simp [hr.1, hr.2]
        have hno : ¬ (c = NUL ∨ ['\r', '\n'].contains c = true) := fun h => h.elim hn hr
        rw [if_neg hno, if_pos hp, List.take_succ_cons]
        exact congrArg (List.cons c) ih

/-- C16 as amended: the text `main` uses is the C string `fgets` left in the
buffer (the bytes read, up to the first NUL byte if one was read) cut at its
first carriage return or line feed.  That text holds no CR, no LF and no NUL;
when it is empty nothing is called and the state stays as it is; otherwise
`displayOnSSD1306` is called once, with that text; and when every character of
the string from its first CR or LF on is a CR or LF, the text is the string
with its CR and LF removed. -/
theorem main_input_line (st : Main) (input : List Char) :
    main_text input = (c_string input).takeWhile (fun c => c != '\r' && c != '\n') ∧
    (∀ c ∈ main_text input, c ≠ '\r' ∧ c ≠ '\n' ∧ c ≠ NUL) ∧
    (main_text input = [] → main_input st (some input) = .ok st) ∧
    (main_text input ≠ [] →
      ∃ st2, main_input st (some input) = .ok st2 ∧
        st2.display.messages = st.display.messages ++ [main_text input]) ∧
    ((∀ c ∈ (c_string input).drop (main_text input).length, c = '\r' ∨ c = '\n') →
      main_text input = strip_crlf (c_string input)) := by
  have htext : main_text input = (c_string input).takeWhile (fun c => c != '\r' && c != '\n') := by
    rw [main_text_eq, take_strcspn_c_string]
  refine ⟨htext, ?_, ?_, ?_, ?_⟩
  · intro c hc
    rw [main_text_eq] at hc
    obtain ⟨h1, h2⟩ := take_strcspn_no_crlf input c hc
    exact ⟨h1, h2, take_strcspn_no_nul input _ c hc⟩
  · intro h
    rw [main_text_eq] at h
    exact (main_input_some st input).1 h
  · intro h
    rw [main_text_eq] at h ⊢
    obtain ⟨st2, hrun, hdisp, _⟩ := (main_input_some st input).2 h
    exact ⟨st2, hrun, by rw [hdisp, displayOnSSD1306_messages]⟩
  · intro htail
    have hpre : main_text input = (c_string input).take (main_text input).length := by
      have hp : main_text input <+: c_string input := by
        rw [htext]
        exact List.takeWhile_prefix _
      exact List.prefix_iff_eq_take.1 hp
    have hsplit := List.take_append_drop (main_text input).length (c_string input)
    rw [← hpre] at hsplit
    have hkeep : (main_text input).filter (fun c => c != '\r' && c != '\n')
        = main_text input := by
      rw [List.filter_eq_self]
      intro c hc
      rw [htext] at hc
      have hp := List.mem_takeWhile_imp hc
      exact hp
    have hdrop : ((c_string input).drop (main_text input).length).filter
        (fun c => c != '\r' && c != '\n') = [] := by
      rw [List.filter_eq_nil_iff]
      intro c hc
      rcases htail c hc with h | h <;> simp [h]
    unfold strip_crlf
    conv_rhs => rw [← hsplit]
    rw [List.filter_append, hkeep, hdrop, List.append_nil]

/-- Witness of the amended C16: of the line `Hi`, CR, LF the text `Hi` is
forwarded, and it is the line with CR and LF removed; of the bytes NUL, `7`,
`Z`, LF the string is empty and nothing is called. -/
theorem main_input_line_witness :
    (∃ st2, main_input Main.init (some ['H', 'i', '\r', '\n']) = .ok st2 ∧
      st2.display.messages
        = Main.init.display.messages ++ [main_text ['H', 'i', '\r', '\n']]) ∧
    main_text ['H', 'i', '\r', '\n'] = strip_crlf (c_string ['H', 'i', '\r', '\n']) ∧
    main_text ['H', 'i', '\r', '\n'] = ['H', 'i'] ∧
    main_input Main.init (some [NUL, '7', 'Z', '\n']) = .ok Main.init :=
  ⟨(main_input_line Main.init ['H', 'i', '\r', '\n']).2.2.2.1 (by decide),
   (main_input_line Main.init ['H', 'i', '\r', '\n']).2.2.2.2 (by decide),
   by decide,
   (main_input_line Main.init [NUL, '7', 'Z', '\n']).2.2.1 (by decide)⟩

/-- The serpentine index of a logical coordinate, converted to `uint`, is inside
the frame. -/
theorem getIndex_ws2812_uint_lt (x y : Int) (hx0 : 0 ≤ x) (hx5 : x < 5) (hy0 : 0 ≤ y)
    (hy5 : y < 5) : int_to_uint (getIndex_ws2812 x y) < LED_COUNT := by
  rw [getIndex_ws2812_of_nonneg x y hy0]
  have hv : 0 ≤ (if y % 2 = 0 then y * 5 + x else (y + 1) * 5 - 1 - x) ∧
      (if y % 2 = 0 then y * 5 + x else (y + 1) * 5 - 1 - x) < 25 := by
    split <;> omega
  generalize (if y % 2 = 0 then y * 5 + x else (y + 1) * 5 - 1 - x) = v at hv
  show int_to_uint v < 25
  unfold int_to_uint
  rw [Int.emod_eq_of_lt hv.1 (by omega)]
  omega

/-- C18: `displayNumber` is memory-safe on digits.  For `0 ≤ d ≤ 9` and every
`(x, y)` of the two loops, the load `numbers[d][y]` is inside the table, the
index handed to `npSetLED` is below 25, and the loop body ends without a
fault from any state; the whole of `displayNumber(d)` ends without a fault.
The value `main` passes is `input[0] - '0'` under the guard
`'0' ≤ input[0] ≤ '9'`, which lies in `0..9`, so the line handling of `main`
never faults. -/
theorem displayNumber_safe :
    (∀ d x y : Int, 0 ≤ d → d ≤ 9 → 0 ≤ x → x < 5 → 0 ≤ y → y < 5 →
      (∃ row, numbers_read d y = .ok row) ∧
      int_to_uint (getIndex_ws2812 x y) < LED_COUNT ∧
      ∀ s : NpState, ∃ s2, displayNumber_pixel d y s x = .ok s2) ∧
    (∀ (s : NpState) (d : Int), 0 ≤ d → d ≤ 9 → ∃ s2, displayNumber s d = .ok s2) ∧
    (∀ c : Char, '0' ≤ c → c ≤ '9' → 0 ≤ digit_value c ∧ digit_value c ≤ 9) ∧
    (∀ (st : Main) (line : Option (List Char)), ∃ st2, main_input st line = .ok st2) := by
  refine ⟨?_, displayNumber_ok, digit_value_range, ?_⟩
  · intro d x y hd0 hd9 hx0 hx5 hy0 hy5
    have hread : numbers_read d y
        = .ok ((numbers.getD d.toNat []).getD y.toNat 0) := by
      unfold numbers_read
      rw [if_pos ⟨hd0, by omega, hy0, hy5⟩]
    have hidx := getIndex_ws2812_uint_lt x y hx0 hx5 hy0 hy5
    refine ⟨⟨_, hread⟩, hidx, fun s => ?_⟩
    unfold displayNumber_pixel
    rw [hread]
    show ∃ s2, (if (numbers.getD d.toNat []).getD y.toNat 0 &&& (1 <<< (4 - x).toNat) ≠ 0
      then npSetLED s (int_to_uint (getIndex_ws2812 x y)) 255 0 0 else pure s) = .ok s2
    split
    · exact ⟨_, npSetLED_ok s _ 255 0 0 hidx⟩
    · exact ⟨s, rfl⟩
  · intro st line
    cases line with
    | none => exact ⟨st, rfl⟩
    | some input =>
      by_cases h : input.take (strcspn input ['\r', '\n']) = []
      · exact ⟨st, (main_input_some st input).1 h⟩
      · obtain ⟨st2, hrun, _⟩ := (main_input_some st input).2 h
        exact ⟨st2, hrun⟩

/-- Witness of C18 at digit `7`, pixel `(4, 3)`, and on the input line `7`, LF. -/
theorem displayNumber_safe_witness :
    ((∃ row, numbers_read 7 3 = .ok row) ∧
      int_to_uint (getIndex_ws2812 4 3) < LED_COUNT ∧
      ∀ s : NpState, ∃ s2, displayNumber_pixel 7 3 s 4 = .ok s2) ∧
    (0 ≤ digit_value '7' ∧ digit_value '7' ≤ 9) ∧
    (∃ st2, main_input Main.init (some ['7', '\n']) = .ok st2) :=
  ⟨displayNumber_safe.1 7 4 3 (by decide) (by decide) (by decide) (by decide) (by decide)
      (by decide),
   displayNumber_safe.2.2.1 '7' (by decide) (by decide),
   displayNumber_safe.2.2.2 Main.init (some ['7', '\n'])⟩

/-- The pixel writes of a message of at most 20 characters without newline,
drawn at `(5, 0)`, stay in columns `0..123` and rows `0..6`. -/
theorem draw_string_writes_in_range (message : List Char) (hlen : message.length ≤ 20)
    (hnl : ∀ c ∈ message, c ≠ '\n') (w : PixelWrite) (hw : w ∈ draw_string_writes 5 0 message) :
    0 ≤ w.x ∧ w.x ≤ 123 ∧ 0 ≤ w.y ∧ w.y ≤ 6 := by
  rw [(draw_string_eq_apply_writes log_pixel [] 5 0 message).2] at hw
  obtain ⟨call, hcall, hwc⟩ := List.mem_flatMap.1 hw
  obtain ⟨i, hi, rfl⟩ := string_calls_no_newline 5 0 message hnl call hcall
  rw [draw_char_writes_eq] at hwc
  by_cases hl : is_letter (message.getD i ' ') = true
  · rw [if_pos hl] at hwc
    simp only [glyph_writes, List.mem_flatMap, List.mem_map, List.mem_range] at hwc
    obtain ⟨col, hcol, row, hrow, rfl⟩ := hwc
    simp only
    omega
  · rw [if_neg hl] at hwc
    exact absurd hwc (List.not_mem_nil _)

theorem fgets_loop_length (k : Nat) (s : List Char) : (fgets_loop k s).1.length ≤ k := by
  induction k generalizing s with
  | zero => simp [fgets_loop]
  | succ k ih =>
    cases s with
    | nil => simp [fgets_loop]
    | cons c s =>
      unfold fgets_loop
      split
      · simp
      · have := ih s
        simp only [List.length_cons]
        omega

/-- A line read by `fgets(input, 20, stdin)` and cut at its first CR or LF fits
one line of the display. -/
theorem fgets_text_fits (stdin line : List Char) (h : (fgets 20 stdin).1 = some line) :
    fits_one_line (line.take (strcspn line ['\r', '\n'])) := by
  have hlen : line.length ≤ 19 := by
    unfold fgets at h
    split at h
    · exact absurd h (by simp)
    · have hl := fgets_loop_length (20 - 1) stdin
      simp only [Option.some.injEq] at h
      rw [h] at hl
      exact hl
  constructor
  · rw [List.length_take]
    omega
  · intro c hc
    exact (take_strcspn_no_crlf line c hc).2

theorem msg_green_fits (b : Bool) : fits_one_line (msg_green b) := by
  cases b <;> exact ⟨by decide, by decide⟩

theorem msg_blue_fits (b : Bool) : fits_one_line (msg_blue b) := by
  cases b <;> exact ⟨by decide, by decide⟩

/-- The messages the line handling of `main` adds to the log. -/
theorem main_input_messages (st st2 : Main) (line : Option (List Char))
    (hrun : main_input st line = .ok st2) (hfit : ∀ input, line = some input →
      fits_one_line (input.take (strcspn input ['\r', '\n']))) :
    ∃ new, st2.display.messages = st.display.messages ++ new ∧ ∀ m ∈ new, fits_one_line m := by
  cases line with
  | none =>
    have h : st2 = st := by
      have : (Except.ok st : Except Fault Main) = .ok st2 := hrun
      exact (Except.ok.inj this).symm
    exact ⟨[], by rw [h, List.append_nil], fun m hm => absurd hm (List.not_mem_nil _)⟩
  | some input =>
    by_cases h : input.take (strcspn input ['\r', '\n']) = []
    · rw [(main_input_some st input).1 h] at hrun
      have h2 : st2 = st := (Except.ok.inj hrun).symm
      exact ⟨[], by rw [h2, List.append_nil], fun m hm => absurd hm (List.not_mem_nil _)⟩
    · obtain ⟨st3, hrun3, hdisp, _⟩ := (main_input_some st input).2 h
      rw [hrun3] at hrun
      have h2 : st2 = st3 := (Except.ok.inj hrun).symm
      refine ⟨[input.take (strcspn input ['\r', '\n'])], ?_, ?_⟩
      · rw [h2, hdisp, displayOnSSD1306_messages]
      · intro m hm
        rw [List.mem_singleton] at hm
        rw [hm]
        exact hfit input rfl

theorem main_poll_a_messages (st : Main) :
    ∃ new, (main_poll_a st).display.messages = st.display.messages ++ new ∧
      ∀ m ∈ new, fits_one_line m := by
  unfold main_poll_a
  split
  · refine ⟨[msg_green (!st.buttons.led_green_state)], rfl, ?_⟩
    intro m hm
    rw [List.mem_singleton] at hm
    rw [hm]
    exact msg_green_fits _
  · exact ⟨[], by rw [List.append_nil], fun m hm => absurd hm (List.not_mem_nil _)⟩

theorem main_poll_b_messages (st : Main) :
    ∃ new, (main_poll_b st).display.messages = st.display.messages ++ new ∧
      ∀ m ∈ new, fits_one_line m := by
  unfold main_poll_b
  split
  · refine ⟨[msg_blue (!st.buttons.led_blue_state)], rfl, ?_⟩
    intro m hm
    rw [List.mem_singleton] at hm
    rw [hm]
    exact msg_blue_fits _
  · exact ⟨[], by rw [List.append_nil], fun m hm => absurd hm (List.not_mem_nil _)⟩

/-- Every message one pass of the loop of `main` hands to `displayOnSSD1306`
fits one line of the display. -/
theorem main_iteration_messages (st st2 : Main) (stdin rest : List Char)
    (hrun : main_iteration st stdin = .ok (st2, rest)) :
    ∃ new, st2.display.messages = st.display.messages ++ new ∧ ∀ m ∈ new, fits_one_line m := by
  unfold main_iteration at hrun
  cases hin : main_input
      { st with stdout := st.stdout ++ ["Digite um caractere ou string: ".toList] }
      (fgets 20 stdin).1 with
  | error e =>
    simp only [hin] at hrun
    exact absurd hrun (by intro h; cases h)
  | ok st1 =>
    simp only [hin] at hrun
    have hst2 : st2 = main_poll_b (main_poll_a st1) := by
      have h := Except.ok.inj hrun
      exact (congrArg Prod.fst h).symm
    obtain ⟨n1, h1, f1⟩ := main_input_messages _ st1 _ hin
      (fun input hl => fgets_text_fits stdin input hl)
    obtain ⟨n2, h2, f2⟩ := main_poll_a_messages st1
    obtain ⟨n3, h3, f3⟩ := main_poll_b_messages (main_poll_a st1)
    refine ⟨n1 ++ (n2 ++ n3), ?_, ?_⟩
    · rw [hst2, h3, h2, h1]
      simp only [List.append_assoc]
    · intro m hm
      rcases List.mem_append.1 hm with h | h
      · exact f1 m h
      · rcases List.mem_append.1 h with h | h
        · exact f2 m h
        · exact f3 m h

/-- C19: for every message of at most 20 characters without newline, every pixel
write `displayOnSSD1306(message)` issues has `0 ≤ x ≤ 123` and `0 ≤ y ≤ 6`,
hence a byte index below 1024 in the 128x64 buffer; the buffer it leaves is
the cleared buffer with exactly these writes applied; and every message one
pass of the loop of `main` hands to `displayOnSSD1306` (the cut input line of
at most 19 characters, the `LED Verde` and `LED Azul` texts) is such a
message. -/
theorem displayOnSSD1306_writes_in_range :
    (∀ message : List Char, fits_one_line message →
      ∀ w ∈ draw_string_writes 5 0 message,
        0 ≤ w.x ∧ w.x ≤ 123 ∧ 0 ≤ w.y ∧ w.y ≤ 6 ∧
        w.y.toNat / 8 * 128 + w.x.toNat < 1024) ∧
    (∀ (d : Display) (message : List Char),
      (displayOnSSD1306 d message).ssd
        = apply_writes ssd1306_set_pixel (memset_zero d.ssd ssd1306_buffer_length)
            (draw_string_writes 5 0 message)) ∧
    (∀ (st st2 : Main) (stdin rest : List Char),
      main_iteration st stdin = .ok (st2, rest) →
      ∃ new, st2.display.messages = st.display.messages ++ new ∧
        ∀ m ∈ new, fits_one_line m) := by
  refine ⟨?_, ?_, main_iteration_messages⟩
  · intro message hfit w hw
    obtain ⟨h1, h2, h3, h4⟩ := draw_string_writes_in_range message hfit.1 hfit.2 w hw
    exact ⟨h1, h2, h3, h4, by omega⟩
  · intro d message
    exact (draw_string_eq_apply_writes ssd1306_set_pixel _ 5 0 message).1

/-- Witness of C19: the longest text of `main`, `LED Verde desligado`, has 19
characters and all its writes are inside the display. -/
theorem displayOnSSD1306_writes_in_range_witness :
    fits_one_line (msg_green false) ∧
    ∀ w ∈ draw_string_writes 5 0 (msg_green false),
      0 ≤ w.x ∧ w.x ≤ 123 ∧ 0 ≤ w.y ∧ w.y ≤ 6 ∧ w.y.toNat / 8 * 128 + w.x.toNat < 1024 :=
  ⟨⟨by decide, by decide⟩,
   displayOnSSD1306_writes_in_range.1 (msg_green false) ⟨by decide, by decide⟩⟩

/-- C20: the debounce test is right across the wrap of the 32-bit microsecond
timer.  With `last_time = L` and the handler called at `now = (L + e) mod 2^32`
for an elapsed time `0 ≤ e < 2^32`, the difference the handler computes is `e`,
so the edge is accepted exactly when `e ≥ 50000`: then `last_time` becomes
`now` and the flag `true`; otherwise the state stays as it is.  The same holds
for both buttons. -/
theorem button_callback_wraparound (g : Buttons) (e : Nat) (he : e < 4294967296) :
    uint32_sub ((g.last_time_a + e) % 4294967296) g.last_time_a = e ∧
    (button_a_accepts g ((g.last_time_a + e) % 4294967296) = true ↔ 50000 ≤ e) ∧
    (50000 ≤ e → button_a_callback g ((g.last_time_a + e) % 4294967296)
      = { g with last_time_a := (g.last_time_a + e) % 4294967296, button_a_pressed := true }) ∧
    (e < 50000 → button_a_callback g ((g.last_time_a + e) % 4294967296) = g) ∧
    uint32_sub ((g.last_time_b + e) % 4294967296) g.last_time_b = e ∧
    (button_b_accepts g ((g.last_time_b + e) % 4294967296) = true ↔ 50000 ≤ e) ∧
    (50000 ≤ e → button_b_callback g ((g.last_time_b + e) % 4294967296)
      = { g with last_time_b := (g.last_time_b + e) % 4294967296, button_b_pressed := true }) ∧
    (e < 50000 → button_b_callback g ((g.last_time_b + e) % 4294967296) = g) := by
  have ha := uint32_sub_elapsed g.last_time_a e he
  have hb := uint32_sub_elapsed g.last_time_b e he
  refine ⟨ha, ?_, ?_, ?_, hb, ?_, ?_, ?_⟩
  · simp only [button_a_accepts, ha, Bool.not_eq_true', decide_eq_false_iff_not, not_lt]
  · intro h
    have hn : ¬ e < 50000 := by omega
    simp only [button_a_callback, ha, if_neg hn]
  · intro h
    simp only [button_a_callback, ha, if_pos h]
  · simp only [button_b_accepts, hb, Bool.not_eq_true', decide_eq_false_iff_not, not_lt]
  · intro h
    have hn : ¬ e < 50000 := by omega
    simp only [button_b_callback, hb, if_neg hn]
  · intro h
    simp only [button_b_callback, hb, if_pos h]

/-- Witness of C20: last accepted edge 10 µs before the timer wraps; an edge
60000 µs later, at tick `59990` after the wrap, is accepted, an edge 10000 µs
later, at tick `9990`, is not. -/
theorem button_callback_wraparound_witness :
    (button_a_accepts { Buttons.init with last_time_a := 4294967286 }
        ((4294967286 + 60000) % 4294967296) = true ↔ 50000 ≤ 60000) ∧
    button_a_callback { Buttons.init with last_time_a := 4294967286 }
        ((4294967286 + 10000) % 4294967296)
      = { Buttons.init with last_time_a := 4294967286 } :=
  ⟨(button_callback_wraparound { Buttons.init with last_time_a := 4294967286 } 60000
      (by decide)).2.1,
   (button_callback_wraparound { Buttons.init with last_time_a := 4294967286 } 10000
      (by decide)).2.2.2.1 (by decide)⟩

/-- The C string `main` keeps on two buffers that hold a NUL byte: `a`, NUL, `b`,
LF gives `a`; NUL, `7`, `Z`, LF gives the empty string. -/
theorem main_text_with_nul :
    main_text ['a', NUL, 'b', '\n'] = ['a'] ∧ main_text [NUL, '7', 'Z', '\n'] = [] := by
  decide

/-- The block of button A is its test followed by `main_poll_a_body`. -/
theorem main_poll_a_eq_body (st : Main) :
    main_poll_a st = if st.buttons.button_a_pressed then main_poll_a_body st else st := by
  unfold main_poll_a main_poll_a_body
  split <;> rfl

/-- C17: the race between the handler setting the flag and the loop's
test-then-clear.  The handler of button A accepts an edge at tick `now` right
after the loop read `button_a_pressed` and before the loop goes on.  Afterwards
the flag is still `true`, or the event has been acted on: the block ran after
the handler, negated `led_green_state`, put it on the pin and sent the message
to the console and to `displayOnSSD1306`.  When the loop had read `true`, the
store of `false` follows the handler, the flag ends `false` and the block's one
action serves this edge together with the edge that had set the flag before;
when it had read `false`, no store of `false` happens and the flag stays `true`
for the next pass. -/
theorem main_poll_a_interrupted_event_kept (st : Main) (now : Nat)
    (hacc : button_a_accepts st.buttons now = true) :
    ((main_poll_a_interrupted st now).buttons.button_a_pressed = true ∨
      ((main_poll_a_interrupted st now).buttons.led_green_state
          = !st.buttons.led_green_state ∧
        (main_poll_a_interrupted st now).led_green_pin = !st.buttons.led_green_state ∧
        (main_poll_a_interrupted st now).display
          = displayOnSSD1306 st.display (msg_green (!st.buttons.led_green_state)) ∧
        (main_poll_a_interrupted st now).stdout
          = st.stdout ++ [msg_green (!st.buttons.led_green_state) ++ ['\n']])) ∧
    (main_poll_a_interrupted st now).buttons.last_time_a = now ∧
    (st.buttons.button_a_pressed = true →
      main_poll_a_interrupted st now
        = main_poll_a_body { st with buttons :=
            { st.buttons with last_time_a := now, button_a_pressed := true } } ∧
      (main_poll_a_interrupted st now).buttons.button_a_pressed = false) ∧
    (st.buttons.button_a_pressed = false →
      main_poll_a_interrupted st now
        = { st with buttons :=
            { st.buttons with last_time_a := now, button_a_pressed := true } }) := by
  have hguard : ¬ uint32_sub now st.buttons.last_time_a < 50000 := by
    simpa [button_a_accepts] using hacc
  have hcb : button_a_callback st.buttons now
      = { st.buttons with last_time_a := now, button_a_pressed := true } := by
    simp only [button_a_callback, if_neg hguard]
  cases hread : st.buttons.button_a_pressed with
  | true =>
    have hrun : main_poll_a_interrupted st now
        = main_poll_a_body { st with buttons :=
            { st.buttons with last_time_a := now, button_a_pressed := true } } := by
      simp only [main_poll_a_interrupted, hread, hcb, if_true]
    refine ⟨Or.inr ?_, ?_, fun _ => ⟨hrun, ?_⟩, fun h => absurd h (by decide)⟩
    · rw [hrun]
      exact ⟨rfl, rfl, rfl, rfl⟩
    · rw [hrun]
      rfl
    · rw [hrun]
      rfl
  | false =>
    have hrun : main_poll_a_interrupted st now
        = { st with buttons :=
            { st.buttons with last_time_a := now, button_a_pressed := true } } := by
      simp only [main_poll_a_interrupted, hread, hcb, Bool.false_eq_true, if_false]
    refine ⟨Or.inl ?_, ?_, fun h => absurd h (by decide), fun _ => hrun⟩
    · rw [hrun]
    · rw [hrun]

/-- Witness of C17: the flag of button A is set, the loop reads it, the handler
accepts a second edge at tick `60000`, the loop goes on: the flag ends `false`
and the green state has been negated after the handler ran. -/
theorem main_poll_a_interrupted_event_kept_witness :
    button_a_accepts
        ({ Main.init with buttons := { Buttons.init with button_a_pressed := true } } : Main).buttons
        60000 = true ∧
    (main_poll_a_interrupted
        { Main.init with buttons := { Buttons.init with button_a_pressed := true } }
        60000).buttons.last_time_a = 60000 ∧
    (main_poll_a_interrupted
        { Main.init with buttons := { Buttons.init with button_a_pressed := true } }
        60000).buttons.button_a_pressed = false :=
  ⟨by decide,
   (main_poll_a_interrupted_event_kept
      { Main.init with buttons := { Buttons.init with button_a_pressed := true } }
      60000 (by decide)).2.1,
   ((main_poll_a_interrupted_event_kept
      { Main.init with buttons := { Buttons.init with button_a_pressed := true } }
      60000 (by decide)).2.2.1 rfl).2⟩

end NeopixelPio
